import Mathlib

set_option linter.unusedVariables false

/-!
Shallow embedding of the test orchestration harness of
src/src/picoquic_sp.c (repository picoquic_in_space).

The embedding follows the C source function by function:

* test_status_t, picoquic_test_def_t, test_table  (lines 43-63)
* do_one_test                                     (lines 65-88)
* usage                                           (lines 90-120, modelled as
  the err_event.usage_text marker appended to the error stream)
* get_test_number                                 (lines 122-133)
* main                                            (lines 135-412), split into
  the stages of its control flow: the getopt loop (process_args), the
  auto-bypass and trailing-positional blocks (after_getopt), the default
  sweep (run_sweep), and the report/retry section (main_run).

The C test functions take no argument and may return different codes on a
second invocation (the retry pass comments call this a Heisenbug); each test
body is therefore modelled as a function of its invocation ordinal
(0 = first call, made by the sweep; 1 = second call, made by the retry pass).
Output to stdout and stderr is modelled as lists of structured events, one
per fprintf of the source.
-/

inductive test_status_t where
  | test_not_run
  | test_excluded
  | test_success
  | test_failed
deriving DecidableEq, Repr

structure picoquic_test_def_t where
  test_name : String
  test_fn : Nat → Int

/-- Placeholder entry used as the default of out-of-bounds lookups; the C
code never reads out of bounds (all loops are bounded by nb_tests). -/
def dummy_test : picoquic_test_def_t :=
  { test_name := "", test_fn := fun _ => 0 }

/-- test_table[i].test_name. -/
def name_at (tbl : List picoquic_test_def_t) (i : Nat) : String :=
  (tbl.getD i dummy_test).test_name

/-- test_status[i]; calloc initialises every slot to 0 = test_not_run,
which is also the default returned beyond the table length. -/
def status_at (l : List test_status_t) (i : Nat) : test_status_t :=
  l.getD i test_status_t.test_not_run

/-- The concrete registry of lines 56-61.  The four dtn test bodies live
outside this file (they are external collaborators), so the table is
parameterized by their behaviours. -/
def test_table (dtn_basic dtn_data dtn_silence dtn_twenty : Nat → Int) :
    List picoquic_test_def_t :=
  [ { test_name := "dtn_basic", test_fn := dtn_basic },
    { test_name := "dtn_data", test_fn := dtn_data },
    { test_name := "dtn_silence", test_fn := dtn_silence },
    { test_name := "dtn_twenty", test_fn := dtn_twenty } ]

/-- get_test_number, lines 122-133: scans the whole table and remembers the
index of the last entry whose name matches; -1 when no entry matches. -/
def get_test_number (tbl : List picoquic_test_def_t) (test_name : String) : Int :=
  (List.range tbl.length).foldl
    (fun test_number i =>
      if name_at tbl i = test_name then (i : Int) else test_number)
    (-1)

/-- One stdout line of the harness (one fprintf(stdout,...) of the source). -/
inductive out_event where
  | invalid_test_number (i : Nat)
  | start_test (i : Nat) (name : String)
  | success_line
  | fail_line (e : Int)
  | bypassed (i : Nat) (name : String)
  | summary (tried failed : Nat) (suffix : String)
  | failed_list (names : List String)
  | cannot_retry (name : String)
  | retrying (name : String)
  | all_pass
  | still_failing (names : List String)
deriving DecidableEq, Repr

/-- One stderr line of the harness. -/
inductive err_event where
  | incorrect_test_name (s : String)
  | incorrect_test_name_pos
  | incorrect_first_last
  | incorrect_stress_minutes
  | incorrect_cf_rounds
  | incorrect_cnx_minutes
  | incorrect_cnx_nb
  | incorrect_ddos_packets
  | incorrect_ddos_interval
  | usage_text
deriving DecidableEq, Repr

/-- test_table[i].test_fn() at the given invocation ordinal; do_one_test
reports -1 for an index beyond the table without calling any function. -/
def run_result (tbl : List picoquic_test_def_t) (i call : Nat) : Int :=
  if i < tbl.length then (tbl.getD i dummy_test).test_fn call else -1

/-- do_one_test, lines 65-88: prints the start line, runs the test, prints
the success or failure line, and returns the test result. -/
def do_one_test (tbl : List picoquic_test_def_t) (i call : Nat) :
    Int × List out_event :=
  if i < tbl.length then
    let r := run_result tbl i call
    (r, [out_event.start_test i (name_at tbl i)] ++
        (if r = 0 then [out_event.success_line] else [out_event.fail_line r]))
  else
    (-1, [out_event.invalid_test_number i])

/-- One parsed command-line option, as delivered by the getopt loop of
lines 174-292.  The -x group carries every name consumed up to the next
flag; -o, -s, -f, -F, -c, -d carry their numeric arguments (already through
atoi); -S only configures an external path; an unrecognised flag is
opt_bad.  -h prints usage and exits 0 before any selection or execution
and is not modelled. -/
inductive cli_arg where
  | opt_x (names : List String)
  | opt_o (n1 n2 : Int)
  | opt_s (minutes : Int)
  | opt_f (minutes : Int)
  | opt_cf (rounds : Int)
  | opt_c (minutes nb_cnx : Int)
  | opt_d (packets interval : Int) (dir : String)
  | opt_sol (dir : String)
  | opt_n
  | opt_r
  | opt_bad
deriving DecidableEq, Repr

/-- The local variables of main that drive test selection, lines 137-160,
plus the stderr transcript. -/
structure parse_state where
  ret : Int
  test_status : List test_status_t
  first_test : Nat
  last_test : Nat
  do_fuzz : Bool
  do_stress : Bool
  do_cnx_stress : Bool
  do_cnx_ddos : Bool
  do_cf_fuzz : Bool
  cnx_stress_nb_cnx : Int
  disable_debug : Bool
  retry_failed_test : Bool
  auto_bypass : Bool
  err_out : List err_event
deriving Repr

/-- Initial state: ret = 0, all statuses cleared to test_not_run by calloc,
first_test = 0, last_test = 10000, all flags off. -/
def init_state (tbl : List picoquic_test_def_t) : parse_state :=
  { ret := 0
    test_status := List.replicate tbl.length test_status_t.test_not_run
    first_test := 0
    last_test := 10000
    do_fuzz := false
    do_stress := false
    do_cnx_stress := false
    do_cnx_ddos := false
    do_cf_fuzz := false
    cnx_stress_nb_cnx := 0
    disable_debug := false
    retry_failed_test := false
    auto_bypass := false
    err_out := [] }

/-- A specific error message followed by ret = usage(argv[0]): usage prints
the usage text to stderr and returns -1. -/
def usage_err (st : parse_state) (e : err_event) : parse_state :=
  { st with err_out := st.err_out ++ [e, err_event.usage_text], ret := -1 }

/-- ret = usage(argv[0]) with no preceding specific message (the default
case of the option switch). -/
def usage_only (st : parse_state) : parse_state :=
  { st with err_out := st.err_out ++ [err_event.usage_text], ret := -1 }

/-- The -x handler, lines 176-197: each name of the group is looked up;
an unknown name prints an error and calls usage (the loop still consumes
the remaining names of the group), a known name is marked excluded. -/
def process_x_names (tbl : List picoquic_test_def_t) (names : List String)
    (st : parse_state) : parse_state :=
  names.foldl
    (fun st tn =>
      let test_number := get_test_number tbl tn
      if test_number < 0 then
        usage_err st (err_event.incorrect_test_name tn)
      else
        { st with test_status :=
            st.test_status.set test_number.toNat test_status_t.test_excluded })
    st

/-- One iteration of the option switch, lines 175-291.  Each numeric-mode
case first records its mode flag and then validates the arguments, exactly
as the source does; the -d case repeats the source's check of
cnx_stress_nb_cnx (not of the ddos interval). -/
def process_opt (tbl : List picoquic_test_def_t) (st : parse_state)
    (a : cli_arg) : parse_state :=
  match a with
  | cli_arg.opt_x names => process_x_names tbl names st
  | cli_arg.opt_o n1 n2 =>
      if n1 < 0 ∨ n2 < 0 then usage_err st err_event.incorrect_first_last
      else { st with first_test := n1.toNat, last_test := n2.toNat }
  | cli_arg.opt_f minutes =>
      let st := { st with do_fuzz := true }
      if minutes ≤ 0 then usage_err st err_event.incorrect_stress_minutes else st
  | cli_arg.opt_cf rounds =>
      let st := { st with do_cf_fuzz := true }
      if rounds ≤ 0 then usage_err st err_event.incorrect_cf_rounds else st
  | cli_arg.opt_s minutes =>
      let st := { st with do_stress := true }
      if minutes ≤ 0 then usage_err st err_event.incorrect_stress_minutes else st
  | cli_arg.opt_c minutes nb_cnx =>
      let st := { st with do_cnx_stress := true, cnx_stress_nb_cnx := nb_cnx }
      if minutes ≤ 0 then usage_err st err_event.incorrect_cnx_minutes
      else if nb_cnx < 0 then usage_err st err_event.incorrect_cnx_nb
      else st
  | cli_arg.opt_d packets interval dir =>
      let st := { st with do_cnx_ddos := true }
      if packets ≤ 0 then usage_err st err_event.incorrect_ddos_packets
      else if st.cnx_stress_nb_cnx < 0 then
        usage_err st err_event.incorrect_ddos_interval
      else st
  | cli_arg.opt_sol dir => st
  | cli_arg.opt_n => { st with disable_debug := true }
  | cli_arg.opt_r => { st with retry_failed_test := true }
  | cli_arg.opt_bad => usage_only st

/-- The getopt loop, line 174: while (ret == 0 && getopt(...) != -1);
an earlier error stops the consumption of the remaining options. -/
def process_args (tbl : List picoquic_test_def_t) (args : List cli_arg)
    (st : parse_state) : parse_state :=
  match args with
  | [] => st
  | a :: rest =>
      if st.ret = 0 then process_args tbl rest (process_opt tbl st a) else st

/-- The mode test of line 294. -/
def any_mode (st : parse_state) : Bool :=
  st.do_stress || st.do_fuzz || st.do_cnx_stress || st.do_cnx_ddos || st.do_cf_fuzz

/-- The selection loop of lines 307-318: each positional name is looked up
and the named entry reset to test_not_run (status 0); an unknown name is a
usage error (the source prints the stale optarg there, hence the nameless
incorrect_test_name_pos event). -/
def select_names (tbl : List picoquic_test_def_t) (names : List String)
    (st : parse_state) : parse_state :=
  names.foldl
    (fun st nm =>
      let test_number := get_test_number tbl nm
      if test_number < 0 then
        usage_err st err_event.incorrect_test_name_pos
      else
        { st with test_status :=
            st.test_status.set test_number.toNat test_status_t.test_not_run })
    st

/-- The auto-bypass and trailing-positional blocks, lines 293-319, both of
which run whatever the current value of ret.  A mode flag excludes every
entry; a non-empty positional list excludes every entry and then runs the
selection loop over the listed names. -/
def after_getopt (tbl : List picoquic_test_def_t) (positional : List String)
    (st : parse_state) : parse_state :=
  let st :=
    if any_mode st then
      { st with
        auto_bypass := true,
        test_status := List.replicate tbl.length test_status_t.test_excluded }
    else st
  if positional ≠ [] then
    select_names tbl positional
      { st with
        auto_bypass := true,
        test_status := List.replicate tbl.length test_status_t.test_excluded }
  else st

/-- The parse state after the getopt loop alone. -/
def args_state (tbl : List picoquic_test_def_t) (args : List cli_arg) : parse_state :=
  process_args tbl args (init_state tbl)

/-- The parse state at line 328, just before the sweep. -/
def parsed (tbl : List picoquic_test_def_t) (args : List cli_arg)
    (positional : List String) : parse_state :=
  after_getopt tbl positional (args_state tbl args)

/-- State threaded through the execution sweep of lines 329-346, together
with the stdout transcript and the list of test invocations performed so
far (pairs of test index and invocation ordinal). -/
structure sweep_state where
  ret : Int
  test_status : List test_status_t
  nb_test_tried : Nat
  nb_test_failed : Nat
  out : List out_event
  invoked : List (Nat × Nat)
deriving Repr

/-- The body of the sweep loop for index i, lines 331-344.  A test_not_run
entry counts as tried; it is executed only when first_test <= i <= last_test
(the && of line 333 short-circuits), and an out-of-range entry falls to the
else branch and is marked test_success without being run.  An excluded
entry produces a bypassed notice only when no auto-bypass is in effect. -/
def sweep_step (tbl : List picoquic_test_def_t) (first last : Nat)
    (ab : Bool) (ss : sweep_state) (i : Nat) : sweep_state :=
  if status_at ss.test_status i = test_status_t.test_not_run then
    let ss1 := { ss with nb_test_tried := ss.nb_test_tried + 1 }
    if first ≤ i ∧ i ≤ last then
      let p := do_one_test tbl i 0
      let ss2 :=
        { ss1 with
          out := ss1.out ++ p.2,
          invoked := ss1.invoked ++ [(i, 0)] }
      if p.1 ≠ 0 then
        { ss2 with
          test_status := ss2.test_status.set i test_status_t.test_failed,
          nb_test_failed := ss2.nb_test_failed + 1,
          ret := -1 }
      else
        { ss2 with test_status := ss2.test_status.set i test_status_t.test_success }
    else
      { ss1 with test_status := ss1.test_status.set i test_status_t.test_success }
  else if ¬ ab ∧ status_at ss.test_status i = test_status_t.test_excluded then
    { ss with out := ss.out ++ [out_event.bypassed i (name_at tbl i)] }
  else ss

/-- The sweep loop over a list of indices. -/
def sweep_list (tbl : List picoquic_test_def_t) (first last : Nat) (ab : Bool)
    (ss : sweep_state) : List Nat → sweep_state
  | [] => ss
  | i :: rest => sweep_list tbl first last ab (sweep_step tbl first last ab ss i) rest

/-- The full sweep, for (size_t i = 0; i < nb_tests; i++). -/
def run_sweep (tbl : List picoquic_test_def_t) (first last : Nat) (ab : Bool)
    (st : List test_status_t) : sweep_state :=
  sweep_list tbl first last ab
    { ret := 0, test_status := st, nb_test_tried := 0, nb_test_failed := 0,
      out := [], invoked := [] }
    (List.range tbl.length)

/-- The sweep stage of main: executed only when ret == 0 (line 329);
otherwise the counters stay 0 and nothing runs. -/
def swept (tbl : List picoquic_test_def_t) (args : List cli_arg)
    (positional : List String) : sweep_state :=
  let p := parsed tbl args positional
  if p.ret = 0 then
    run_sweep tbl p.first_test p.last_test p.auto_bypass p.test_status
  else
    { ret := p.ret, test_status := p.test_status, nb_test_tried := 0,
      nb_test_failed := 0, out := [], invoked := [] }

/-- The names printed by the failed-test summaries (lines 358-362, 398-402):
the names of the entries whose status is test_failed, in table order. -/
def failed_names (tbl : List picoquic_test_def_t) (st : List test_status_t) :
    List String :=
  ((List.range tbl.length).filter
      (fun i => status_at st i = test_status_t.test_failed)).map (name_at tbl)

/-- The non-retryable blocklist of lines 370-375. -/
def non_retryable (name : String) : Bool :=
  name = "stress" || name = "fuzz" || name = "fuzz_initial" ||
  name = "cnx_stress" || name = "cnx_ddos" || name = "eccf_corrupted_fuzz"

/-- State threaded through the retry loop of lines 368-392. -/
structure retry_state where
  ret : Int
  test_status : List test_status_t
  out : List out_event
  invoked : List (Nat × Nat)
deriving Repr

/-- The body of the retry loop for index i, lines 369-391: only entries
whose status is test_failed are considered; a blocklisted name is refused
(status untouched, ret = -1); any other failed test is re-invoked, flipping
to test_success on 0 and staying test_failed (with ret = -1) otherwise. -/
def retry_step (tbl : List picoquic_test_def_t) (rs : retry_state) (i : Nat) :
    retry_state :=
  if status_at rs.test_status i = test_status_t.test_failed then
    if non_retryable (name_at tbl i) then
      { rs with
        out := rs.out ++ [out_event.cannot_retry (name_at tbl i)],
        ret := -1 }
    else
      let p := do_one_test tbl i 1
      let rs1 := { rs with
        out := rs.out ++ [out_event.retrying (name_at tbl i)] ++ p.2,
        invoked := rs.invoked ++ [(i, 1)] }
      if p.1 ≠ 0 then
        { rs1 with
          test_status := rs1.test_status.set i test_status_t.test_failed,
          ret := -1 }
      else
        { rs1 with test_status := rs1.test_status.set i test_status_t.test_success }
  else rs

/-- The retry loop over a list of indices. -/
def retry_list (tbl : List picoquic_test_def_t) (rs : retry_state) :
    List Nat → retry_state
  | [] => rs
  | i :: rest => retry_list tbl (retry_step tbl rs i) rest

/-- The retry pass, lines 366-392: ret is reset to 0 (line 367) and the
whole table is scanned. -/
def retry_pass (tbl : List picoquic_test_def_t) (st : List test_status_t) :
    retry_state :=
  retry_list tbl
    { ret := 0, test_status := st, out := [], invoked := [] }
    (List.range tbl.length)

/-- The observable outcome of one invocation of main. -/
structure main_result where
  ret : Int
  test_status : List test_status_t
  nb_test_tried : Nat
  nb_test_failed : Nat
  out : List out_event
  err : List err_event
  invoked : List (Nat × Nat)
deriving Repr

/-- main, lines 135-412, assembled from its stages: option parsing and
selection, the default sweep, the aggregate summary of lines 351-354
("Tried %d tests, %d fail%s" with suffix "s" unless nb_test_failed > 1),
the failed-test list, and the conditional retry pass of lines 365-405
followed by the all-clear or still-failing line.  The returned ret is the
final value of the C variable ret. -/
def main_run (tbl : List picoquic_test_def_t) (args : List cli_arg)
    (positional : List String) : main_result :=
  let p := parsed tbl args positional
  let s := swept tbl args positional
  let out1 := s.out ++
    (if s.nb_test_tried > 1 then
      [out_event.summary s.nb_test_tried s.nb_test_failed
        (if s.nb_test_failed > 1 then "" else "s")]
     else [])
  if s.nb_test_failed > 0 then
    let out2 := out1 ++ [out_event.failed_list (failed_names tbl s.test_status)]
    if p.disable_debug ∧ p.retry_failed_test then
      let rr := retry_pass tbl s.test_status
      let out3 := out2 ++ rr.out ++
        (if rr.ret = 0 then [out_event.all_pass]
         else [out_event.still_failing (failed_names tbl rr.test_status)])
      { ret := rr.ret, test_status := rr.test_status,
        nb_test_tried := s.nb_test_tried, nb_test_failed := s.nb_test_failed,
        out := out3, err := p.err_out, invoked := s.invoked ++ rr.invoked }
    else
      { ret := s.ret, test_status := s.test_status,
        nb_test_tried := s.nb_test_tried, nb_test_failed := s.nb_test_failed,
        out := out2, err := p.err_out, invoked := s.invoked }
  else
    { ret := s.ret, test_status := s.test_status,
      nb_test_tried := s.nb_test_tried, nb_test_failed := s.nb_test_failed,
      out := out1, err := p.err_out, invoked := s.invoked }

/-- Whether the sweep runs index j: status test_not_run and ordinal within
[first,last] (the condition of lines 331-333 up to the invocation). -/
def sweep_runs_b (first last : Nat) (st : List test_status_t) (j : Nat) : Bool :=
  decide (status_at st j = test_status_t.test_not_run) &&
  decide (first ≤ j) && decide (j ≤ last)

/-- Whether the sweep records a failure at index j. -/
def sweep_fails_b (tbl : List picoquic_test_def_t) (first last : Nat)
    (st : List test_status_t) (j : Nat) : Bool :=
  sweep_runs_b first last st j && decide (run_result tbl j 0 ≠ 0)

/-- The status the sweep leaves at index j, as a function of the status
table it starts from. -/
def sweep_status_spec (tbl : List picoquic_test_def_t) (first last : Nat)
    (st : List test_status_t) (j : Nat) : test_status_t :=
  if status_at st j = test_status_t.test_not_run then
    (if first ≤ j ∧ j ≤ last ∧ run_result tbl j 0 ≠ 0 then
      test_status_t.test_failed
     else test_status_t.test_success)
  else status_at st j

/-- Whether the retry pass re-invokes index j: currently failed and not in
the non-retryable blocklist. -/
def retry_runs_b (tbl : List picoquic_test_def_t) (st : List test_status_t)
    (j : Nat) : Bool :=
  decide (status_at st j = test_status_t.test_failed) &&
  ! non_retryable (name_at tbl j)

/-- The status the retry pass leaves at index j. -/
def retry_status_spec (tbl : List picoquic_test_def_t) (st : List test_status_t)
    (j : Nat) : test_status_t :=
  if status_at st j = test_status_t.test_failed then
    (if non_retryable (name_at tbl j) then test_status_t.test_failed
     else if run_result tbl j 1 ≠ 0 then test_status_t.test_failed
     else test_status_t.test_success)
  else status_at st j

/-- The kinds of stdout events the sweep loop can emit (a bypassed notice
only when no auto-bypass is in effect). -/
def sweep_out_ev (ab : Bool) (e : out_event) : Prop :=
  match e with
  | out_event.invalid_test_number _ => True
  | out_event.start_test _ _ => True
  | out_event.success_line => True
  | out_event.fail_line _ => True
  | out_event.bypassed _ _ => ab = false
  | _ => False

/-- The kinds of stdout events the retry loop can emit. -/
def retry_out_ev (e : out_event) : Prop :=
  match e with
  | out_event.invalid_test_number _ => True
  | out_event.start_test _ _ => True
  | out_event.success_line => True
  | out_event.fail_line _ => True
  | out_event.cannot_retry _ => True
  | out_event.retrying _ => True
  | _ => False

/-- A test body that always succeeds. -/
def always_ok : Nat → Int := fun _ => 0

/-- A test body that fails with code 7 on its first invocation and succeeds
when re-invoked (the Heisenbug profile of the retry pass). -/
def heisenbug7 : Nat → Int := fun call => if call = 0 then 7 else 0

/-- The concrete dtn registry with all four test bodies succeeding. -/
def tbl_ok : List picoquic_test_def_t :=
  test_table always_ok always_ok always_ok always_ok

/-- A registry holding one permanently failing test named stress, used to
exercise the non-retryable blocklist. -/
def tbl_stress_fail : List picoquic_test_def_t :=
  [ { test_name := "stress", test_fn := fun _ => 1 } ]

/-- A registry holding one Heisenbug test under a retryable name. -/
def tbl_heisenbug : List picoquic_test_def_t :=
  [ { test_name := "dtn_basic", test_fn := heisenbug7 } ]

/-! ### Basic facts about the status table and the registry lookup -/

theorem status_at_set_self (l : List test_status_t) (i : Nat) (v : test_status_t)
    (h : i < l.length) : status_at (l.set i v) i = v := by
  simp [status_at, List.getD_eq_getElem?_getD, List.getElem?_set_self', h]

theorem status_at_set_ne (l : List test_status_t) (i j : Nat) (v : test_status_t)
    (h : j ≠ i) : status_at (l.set i v) j = status_at l j := by
  simp [status_at, List.getD_eq_getElem?_getD, List.getElem?_set_ne (Ne.symm h)]

theorem status_at_of_le (l : List test_status_t) (j : Nat) (h : l.length ≤ j) :
    status_at l j = test_status_t.test_not_run := by
  simp [status_at, List.getD_eq_getElem?_getD, List.getElem?_eq_none h]

theorem status_at_replicate (n j : Nat) (v : test_status_t) (h : j < n) :
    status_at (List.replicate n v) j = v := by
  simp [status_at, List.getD_eq_getElem?_getD, List.getElem?_replicate, h]

theorem do_one_test_fst (tbl : List picoquic_test_def_t) (i call : Nat) :
    (do_one_test tbl i call).1 = run_result tbl i call := by
  by_cases h : i < tbl.length <;> simp [do_one_test, run_result, h]

theorem get_test_number_spec (tbl : List picoquic_test_def_t) (nm : String) :
    get_test_number tbl nm = -1 ∨
    ∃ i : Nat, get_test_number tbl nm = (i : Int) ∧ i < tbl.length ∧
      name_at tbl i = nm := by
  have aux : ∀ (l : List Nat) (acc : Int),
      (∀ i ∈ l, i < tbl.length) →
      (acc = -1 ∨ ∃ i : Nat, acc = (i : Int) ∧ i < tbl.length ∧ name_at tbl i = nm) →
      ((l.foldl (fun test_number i =>
          if name_at tbl i = nm then (i : Int) else test_number) acc) = -1 ∨
       ∃ i : Nat, (l.foldl (fun test_number i =>
          if name_at tbl i = nm then (i : Int) else test_number) acc) = (i : Int) ∧
          i < tbl.length ∧ name_at tbl i = nm) := by
    intro l
    induction l with
    | nil => intro acc _ hacc; simpa using hacc
    | cons a rest ih =>
        intro acc hl hacc
        simp only [List.foldl_cons]
        apply ih
        · intro i hi; exact hl i (List.mem_cons_of_mem a hi)
        · by_cases hmatch : name_at tbl a = nm
          · right
            exact ⟨a, by simp [hmatch], hl a (List.mem_cons_self a rest), hmatch⟩
          · simpa [hmatch] using hacc
  have := aux (List.range tbl.length) (-1)
    (fun i hi => List.mem_range.mp hi) (Or.inl rfl)
  simpa [get_test_number] using this

theorem get_test_number_nonneg (tbl : List picoquic_test_def_t) (nm : String)
    (h : ¬ get_test_number tbl nm < 0) :
    (get_test_number tbl nm).toNat < tbl.length ∧
    name_at tbl (get_test_number tbl nm).toNat = nm := by
  rcases get_test_number_spec tbl nm with heq | ⟨i, heq, hlt, hname⟩
  · omega
  · rw [heq]
    simpa using ⟨hlt, hname⟩

/-! ### The sweep loop -/

theorem sweep_step_bypass (tbl : List picoquic_test_def_t)
    (first last : Nat) (ab : Bool) (ss : sweep_state) (i : Nat)
    (h1 : status_at ss.test_status i ≠ test_status_t.test_not_run)
    (hab : ab = false)
    (hexc : status_at ss.test_status i = test_status_t.test_excluded) :
    sweep_step tbl first last ab ss i =
      { ss with out := ss.out ++ [out_event.bypassed i (name_at tbl i)] } := by
  subst hab
  simp [sweep_step, h1, hexc]

theorem sweep_step_skip (tbl : List picoquic_test_def_t)
    (first last : Nat) (ab : Bool) (ss : sweep_state) (i : Nat)
    (h1 : status_at ss.test_status i ≠ test_status_t.test_not_run)
    (h3 : ¬ (ab = false ∧ status_at ss.test_status i = test_status_t.test_excluded)) :
    sweep_step tbl first last ab ss i = ss := by
  simp only [sweep_step, if_neg h1]
  rw [if_neg]
  intro hcond
  exact h3 ⟨by cases ab <;> simp_all, hcond.2⟩

theorem sweep_step_of_not_notrun (tbl : List picoquic_test_def_t)
    (first last : Nat) (ab : Bool) (ss : sweep_state) (i : Nat)
    (h1 : status_at ss.test_status i ≠ test_status_t.test_not_run) :
    sweep_step tbl first last ab ss i = ss ∨
    sweep_step tbl first last ab ss i =
      { ss with out := ss.out ++ [out_event.bypassed i (name_at tbl i)] } := by
  by_cases h3 : ab = false ∧ status_at ss.test_status i = test_status_t.test_excluded
  · exact Or.inr (sweep_step_bypass tbl first last ab ss i h1 h3.1 h3.2)
  · exact Or.inl (sweep_step_skip tbl first last ab ss i h1 h3)

theorem sweep_step_length (tbl : List picoquic_test_def_t) (first last : Nat)
    (ab : Bool) (ss : sweep_state) (i : Nat) :
    (sweep_step tbl first last ab ss i).test_status.length = ss.test_status.length := by
  by_cases h1 : status_at ss.test_status i = test_status_t.test_not_run
  · by_cases h2 : first ≤ i ∧ i ≤ last
    · by_cases hr : run_result tbl i 0 ≠ 0
      · simp [sweep_step, h1, h2, do_one_test_fst, hr]
      · simp [sweep_step, h1, h2, do_one_test_fst, hr]
    · simp [sweep_step, h1, h2]
  · rcases sweep_step_of_not_notrun tbl first last ab ss i h1 with h | h <;> rw [h]

theorem sweep_step_status_ne (tbl : List picoquic_test_def_t) (first last : Nat)
    (ab : Bool) (ss : sweep_state) (i j : Nat) (h : j ≠ i) :
    status_at (sweep_step tbl first last ab ss i).test_status j =
      status_at ss.test_status j := by
  by_cases h1 : status_at ss.test_status i = test_status_t.test_not_run
  · by_cases h2 : first ≤ i ∧ i ≤ last
    · by_cases hr : run_result tbl i 0 ≠ 0
      · simp [sweep_step, h1, h2, do_one_test_fst, hr, status_at_set_ne _ _ _ _ h]
      · simp [sweep_step, h1, h2, do_one_test_fst, hr, status_at_set_ne _ _ _ _ h]
    · simp [sweep_step, h1, h2, status_at_set_ne _ _ _ _ h]
  · rcases sweep_step_of_not_notrun tbl first last ab ss i h1 with heq | heq <;> rw [heq]

theorem sweep_step_status_self (tbl : List picoquic_test_def_t) (first last : Nat)
    (ab : Bool) (ss : sweep_state) (i : Nat) (hlen : i < ss.test_status.length) :
    status_at (sweep_step tbl first last ab ss i).test_status i =
      sweep_status_spec tbl first last ss.test_status i := by
  by_cases h1 : status_at ss.test_status i = test_status_t.test_not_run
  · by_cases h2 : first ≤ i ∧ i ≤ last
    · by_cases hr : run_result tbl i 0 ≠ 0
      · simp [sweep_step, sweep_status_spec, h1, h2, do_one_test_fst, hr,
          status_at_set_self _ _ _ hlen]
      · simp [sweep_step, sweep_status_spec, h1, h2, do_one_test_fst, hr,
          status_at_set_self _ _ _ hlen]
    · have hcond : ¬ (first ≤ i ∧ i ≤ last ∧ run_result tbl i 0 ≠ 0) := by tauto
      simp [sweep_step, sweep_status_spec, h1, h2, hcond,
        status_at_set_self _ _ _ hlen]
  · have hstat : status_at (sweep_step tbl first last ab ss i).test_status i =
        status_at ss.test_status i := by
      rcases sweep_step_of_not_notrun tbl first last ab ss i h1 with heq | heq <;> rw [heq]
    rw [hstat, sweep_status_spec, if_neg h1]

theorem sweep_step_tried (tbl : List picoquic_test_def_t) (first last : Nat)
    (ab : Bool) (ss : sweep_state) (i : Nat) :
    (sweep_step tbl first last ab ss i).nb_test_tried =
      ss.nb_test_tried +
        (if status_at ss.test_status i = test_status_t.test_not_run then 1 else 0) := by
  by_cases h1 : status_at ss.test_status i = test_status_t.test_not_run
  · by_cases h2 : first ≤ i ∧ i ≤ last
    · by_cases hr : run_result tbl i 0 ≠ 0
      · simp [sweep_step, h1, h2, do_one_test_fst, hr]
      · simp [sweep_step, h1, h2, do_one_test_fst, hr]
    · simp [sweep_step, h1, h2]
  · rcases sweep_step_of_not_notrun tbl first last ab ss i h1 with heq | heq <;>
      rw [heq] <;> simp [h1]

theorem sweep_step_failed (tbl : List picoquic_test_def_t) (first last : Nat)
    (ab : Bool) (ss : sweep_state) (i : Nat) :
    (sweep_step tbl first last ab ss i).nb_test_failed =
      ss.nb_test_failed +
        (if sweep_fails_b tbl first last ss.test_status i then 1 else 0) := by
  by_cases h1 : status_at ss.test_status i = test_status_t.test_not_run
  · by_cases h2 : first ≤ i ∧ i ≤ last
    · by_cases hr : run_result tbl i 0 ≠ 0
      · simp [sweep_step, sweep_fails_b, sweep_runs_b, h1, h2, h2.1, h2.2,
          do_one_test_fst, hr]
      · simp [sweep_step, sweep_fails_b, sweep_runs_b, h1, h2, do_one_test_fst, hr]
    · have : ¬ (first ≤ i) ∨ ¬ (i ≤ last) := by tauto
      rcases this with h | h <;>
        simp [sweep_step, sweep_fails_b, sweep_runs_b, h1, h2, h]
  · rcases sweep_step_of_not_notrun tbl first last ab ss i h1 with heq | heq <;>
      rw [heq] <;> simp [sweep_fails_b, sweep_runs_b, h1]

theorem sweep_step_ret_of_nofail (tbl : List picoquic_test_def_t) (first last : Nat)
    (ab : Bool) (ss : sweep_state) (i : Nat)
    (h : sweep_fails_b tbl first last ss.test_status i = false) :
    (sweep_step tbl first last ab ss i).ret = ss.ret := by
  by_cases h1 : status_at ss.test_status i = test_status_t.test_not_run
  · by_cases h2 : first ≤ i ∧ i ≤ last
    · have hr : ¬ (run_result tbl i 0 ≠ 0) := by
        simp [sweep_fails_b, sweep_runs_b, h1, h2.1, h2.2] at h
        simpa using h
      simp [sweep_step, h1, h2, do_one_test_fst, hr]
    · simp [sweep_step, h1, h2]
  · rcases sweep_step_of_not_notrun tbl first last ab ss i h1 with heq | heq <;> rw [heq]

theorem sweep_step_invoked (tbl : List picoquic_test_def_t) (first last : Nat)
    (ab : Bool) (ss : sweep_state) (i : Nat) :
    (sweep_step tbl first last ab ss i).invoked =
      ss.invoked ++
        (if sweep_runs_b first last ss.test_status i then [(i, 0)] else []) := by
  by_cases h1 : status_at ss.test_status i = test_status_t.test_not_run
  · by_cases h2 : first ≤ i ∧ i ≤ last
    · by_cases hr : run_result tbl i 0 ≠ 0
      · simp [sweep_step, sweep_runs_b, h1, h2.1, h2.2, do_one_test_fst, hr]
      · simp [sweep_step, sweep_runs_b, h1, h2.1, h2.2, do_one_test_fst, hr]
    · have : ¬ (first ≤ i) ∨ ¬ (i ≤ last) := by tauto
      rcases this with h | h <;> simp [sweep_step, sweep_runs_b, h1, h2, h]
  · rcases sweep_step_of_not_notrun tbl first last ab ss i h1 with heq | heq <;>
      rw [heq] <;> simp [sweep_runs_b, h1]

theorem do_one_test_out (tbl : List picoquic_test_def_t) (i call : Nat)
    (ab : Bool) : ∀ e ∈ (do_one_test tbl i call).2, sweep_out_ev ab e := by
  intro e he
  by_cases h : i < tbl.length
  · simp only [do_one_test, if_pos h] at he
    by_cases hr : run_result tbl i call = 0 <;> simp [hr] at he <;>
      rcases he with he | he <;> subst he <;> trivial
  · simp only [do_one_test, if_neg h] at he
    simp at he; subst he; trivial

theorem sweep_step_out (tbl : List picoquic_test_def_t) (first last : Nat)
    (ab : Bool) (ss : sweep_state) (i : Nat) :
    ∃ t, (sweep_step tbl first last ab ss i).out = ss.out ++ t ∧
      ∀ e ∈ t, sweep_out_ev ab e := by
  by_cases h1 : status_at ss.test_status i = test_status_t.test_not_run
  · by_cases h2 : first ≤ i ∧ i ≤ last
    · by_cases hr : run_result tbl i 0 ≠ 0
      · exact ⟨(do_one_test tbl i 0).2,
          by simp [sweep_step, h1, h2, do_one_test_fst, hr],
          do_one_test_out tbl i 0 ab⟩
      · exact ⟨(do_one_test tbl i 0).2,
          by simp [sweep_step, h1, h2, do_one_test_fst, hr],
          do_one_test_out tbl i 0 ab⟩
    · exact ⟨[], by simp [sweep_step, h1, h2], by simp⟩
  · by_cases h3 : ab = false ∧ status_at ss.test_status i = test_status_t.test_excluded
    · refine ⟨[out_event.bypassed i (name_at tbl i)],
        by rw [sweep_step_bypass tbl first last ab ss i h1 h3.1 h3.2], ?_⟩
      intro e he
      simp at he
      subst he
      exact h3.1
    · exact ⟨[], by rw [sweep_step_skip tbl first last ab ss i h1 h3]; simp, by simp⟩

theorem sweep_runs_b_congr (first last : Nat) (st st2 : List test_status_t)
    (j : Nat) (h : status_at st j = status_at st2 j) :
    sweep_runs_b first last st j = sweep_runs_b first last st2 j := by
  simp [sweep_runs_b, h]

theorem sweep_fails_b_congr (tbl : List picoquic_test_def_t) (first last : Nat)
    (st st2 : List test_status_t) (j : Nat)
    (h : status_at st j = status_at st2 j) :
    sweep_fails_b tbl first last st j = sweep_fails_b tbl first last st2 j := by
  simp [sweep_fails_b, sweep_runs_b_congr first last st st2 j h]

theorem sweep_status_spec_congr (tbl : List picoquic_test_def_t)
    (first last : Nat) (st st2 : List test_status_t) (j : Nat)
    (h : status_at st j = status_at st2 j) :
    sweep_status_spec tbl first last st j = sweep_status_spec tbl first last st2 j := by
  simp only [sweep_status_spec, h]

theorem sweep_list_cons (tbl : List picoquic_test_def_t) (first last : Nat)
    (ab : Bool) (ss : sweep_state) (i : Nat) (rest : List Nat) :
    sweep_list tbl first last ab ss (i :: rest) =
      sweep_list tbl first last ab (sweep_step tbl first last ab ss i) rest := rfl

theorem sweep_list_length (tbl : List picoquic_test_def_t) (first last : Nat)
    (ab : Bool) (l : List Nat) (ss : sweep_state) :
    (sweep_list tbl first last ab ss l).test_status.length = ss.test_status.length := by
  induction l generalizing ss with
  | nil => rfl
  | cons i rest ih =>
      rw [sweep_list_cons, ih, sweep_step_length]

theorem sweep_list_status_notmem (tbl : List picoquic_test_def_t)
    (first last : Nat) (ab : Bool) (l : List Nat) (ss : sweep_state) (j : Nat)
    (hj : j ∉ l) :
    status_at (sweep_list tbl first last ab ss l).test_status j =
      status_at ss.test_status j := by
  induction l generalizing ss with
  | nil => rfl
  | cons i rest ih =>
      rw [sweep_list_cons, ih _ (fun h => hj (List.mem_cons_of_mem i h)),
        sweep_step_status_ne]
      exact fun h => hj (h ▸ List.mem_cons_self i rest)

theorem sweep_list_status (tbl : List picoquic_test_def_t) (first last : Nat)
    (ab : Bool) (l : List Nat) (ss : sweep_state) (j : Nat)
    (hnd : l.Nodup) (hj : j ∈ l) (hlen : j < ss.test_status.length) :
    status_at (sweep_list tbl first last ab ss l).test_status j =
      sweep_status_spec tbl first last ss.test_status j := by
  induction l generalizing ss with
  | nil => cases hj
  | cons i rest ih =>
      rw [sweep_list_cons]
      rcases List.mem_cons.mp hj with heq | hmem
      · subst heq
        rw [sweep_list_status_notmem tbl first last ab rest _ j
            (List.Nodup.not_mem hnd),
          sweep_step_status_self tbl first last ab ss j hlen]
      · have hne : j ≠ i := by
          intro h
          exact (List.Nodup.not_mem hnd) (h ▸ hmem)
        rw [ih (sweep_step tbl first last ab ss i)
            (List.Nodup.of_cons hnd) hmem
            (by rw [sweep_step_length]; exact hlen),
          sweep_status_spec_congr tbl first last _ _ j
            (sweep_step_status_ne tbl first last ab ss i j hne)]

theorem sweep_list_tried (tbl : List picoquic_test_def_t) (first last : Nat)
    (ab : Bool) (l : List Nat) (ss : sweep_state) (hnd : l.Nodup) :
    (sweep_list tbl first last ab ss l).nb_test_tried =
      ss.nb_test_tried +
        (l.filter (fun j =>
          decide (status_at ss.test_status j = test_status_t.test_not_run))).length := by
  induction l generalizing ss with
  | nil => simp [sweep_list]
  | cons i rest ih =>
      rw [sweep_list_cons, ih _ (List.Nodup.of_cons hnd)]
      have hcongr : rest.filter (fun j =>
          decide (status_at (sweep_step tbl first last ab ss i).test_status j =
            test_status_t.test_not_run)) =
        rest.filter (fun j =>
          decide (status_at ss.test_status j = test_status_t.test_not_run)) := by
        apply List.filter_congr
        intro j hj
        have hne : j ≠ i := fun h => (List.Nodup.not_mem hnd) (h ▸ hj)
        rw [sweep_step_status_ne tbl first last ab ss i j hne]
      rw [hcongr, sweep_step_tried, List.filter_cons]
      by_cases h1 : status_at ss.test_status i = test_status_t.test_not_run <;>
        simp [h1] <;> omega

theorem sweep_list_failed (tbl : List picoquic_test_def_t) (first last : Nat)
    (ab : Bool) (l : List Nat) (ss : sweep_state) (hnd : l.Nodup) :
    (sweep_list tbl first last ab ss l).nb_test_failed =
      ss.nb_test_failed +
        (l.filter (sweep_fails_b tbl first last ss.test_status)).length := by
  induction l generalizing ss with
  | nil => simp [sweep_list]
  | cons i rest ih =>
      rw [sweep_list_cons, ih _ (List.Nodup.of_cons hnd)]
      have hcongr : rest.filter
            (sweep_fails_b tbl first last (sweep_step tbl first last ab ss i).test_status) =
          rest.filter (sweep_fails_b tbl first last ss.test_status) := by
        apply List.filter_congr
        intro j hj
        have hne : j ≠ i := fun h => (List.Nodup.not_mem hnd) (h ▸ hj)
        rw [sweep_fails_b_congr tbl first last _ _ j
          (sweep_step_status_ne tbl first last ab ss i j hne)]
      rw [hcongr, sweep_step_failed, List.filter_cons]
      by_cases h1 : sweep_fails_b tbl first last ss.test_status i = true <;>
        simp [h1] <;> omega

theorem sweep_list_ret_of_nofail (tbl : List picoquic_test_def_t) (first last : Nat)
    (ab : Bool) (l : List Nat) (ss : sweep_state) (hnd : l.Nodup)
    (h : ∀ j ∈ l, sweep_fails_b tbl first last ss.test_status j = false) :
    (sweep_list tbl first last ab ss l).ret = ss.ret := by
  induction l generalizing ss with
  | nil => rfl
  | cons i rest ih =>
      rw [sweep_list_cons, ih _ (List.Nodup.of_cons hnd), sweep_step_ret_of_nofail]
      · exact h i (List.mem_cons_self i rest)
      · intro j hj
        have hne : j ≠ i := fun heq => (List.Nodup.not_mem hnd) (heq ▸ hj)
        rw [sweep_fails_b_congr tbl first last _ _ j
          (sweep_step_status_ne tbl first last ab ss i j hne)]
        exact h j (List.mem_cons_of_mem i hj)

theorem sweep_list_invoked (tbl : List picoquic_test_def_t) (first last : Nat)
    (ab : Bool) (l : List Nat) (ss : sweep_state) (hnd : l.Nodup) :
    (sweep_list tbl first last ab ss l).invoked =
      ss.invoked ++
        (l.filter (sweep_runs_b first last ss.test_status)).map (fun j => (j, 0)) := by
  induction l generalizing ss with
  | nil => simp [sweep_list]
  | cons i rest ih =>
      rw [sweep_list_cons, ih _ (List.Nodup.of_cons hnd)]
      have hcongr : rest.filter
            (sweep_runs_b first last (sweep_step tbl first last ab ss i).test_status) =
          rest.filter (sweep_runs_b first last ss.test_status) := by
        apply List.filter_congr
        intro j hj
        have hne : j ≠ i := fun heq => (List.Nodup.not_mem hnd) (heq ▸ hj)
        rw [sweep_runs_b_congr first last _ _ j
          (sweep_step_status_ne tbl first last ab ss i j hne)]
      rw [hcongr, sweep_step_invoked, List.filter_cons]
      by_cases h1 : sweep_runs_b first last ss.test_status i = true <;>
        simp [h1]

theorem sweep_list_out (tbl : List picoquic_test_def_t) (first last : Nat)
    (ab : Bool) (l : List Nat) (ss : sweep_state) :
    ∃ t, (sweep_list tbl first last ab ss l).out = ss.out ++ t ∧
      ∀ e ∈ t, sweep_out_ev ab e := by
  induction l generalizing ss with
  | nil => exact ⟨[], by simp [sweep_list], by simp⟩
  | cons i rest ih =>
      rw [sweep_list_cons]
      obtain ⟨t1, ht1, he1⟩ := sweep_step_out tbl first last ab ss i
      obtain ⟨t2, ht2, he2⟩ := ih (sweep_step tbl first last ab ss i)
      refine ⟨t1 ++ t2, ?_, ?_⟩
      · rw [ht2, ht1, List.append_assoc]
      · intro e he
        rcases List.mem_append.mp he with h | h
        · exact he1 e h
        · exact he2 e h

theorem retry_runs_b_congr (tbl : List picoquic_test_def_t)
    (st st2 : List test_status_t) (j : Nat)
    (h : status_at st j = status_at st2 j) :
    retry_runs_b tbl st j = retry_runs_b tbl st2 j := by
  simp [retry_runs_b, h]

theorem retry_status_spec_congr (tbl : List picoquic_test_def_t)
    (st st2 : List test_status_t) (j : Nat)
    (h : status_at st j = status_at st2 j) :
    retry_status_spec tbl st j = retry_status_spec tbl st2 j := by
  simp only [retry_status_spec, h]

theorem retry_step_length (tbl : List picoquic_test_def_t) (rs : retry_state)
    (i : Nat) :
    (retry_step tbl rs i).test_status.length = rs.test_status.length := by
  by_cases h1 : status_at rs.test_status i = test_status_t.test_failed
  · by_cases h2 : non_retryable (name_at tbl i)
    · simp [retry_step, h1, h2]
    · by_cases hr : run_result tbl i 1 ≠ 0
      · simp [retry_step, h1, h2, do_one_test_fst, hr]
      · simp [retry_step, h1, h2, do_one_test_fst, hr]
  · simp [retry_step, h1]

theorem retry_step_status_ne (tbl : List picoquic_test_def_t) (rs : retry_state)
    (i j : Nat) (h : j ≠ i) :
    status_at (retry_step tbl rs i).test_status j = status_at rs.test_status j := by
  by_cases h1 : status_at rs.test_status i = test_status_t.test_failed
  · by_cases h2 : non_retryable (name_at tbl i)
    · simp [retry_step, h1, h2]
    · by_cases hr : run_result tbl i 1 ≠ 0
      · simp [retry_step, h1, h2, do_one_test_fst, hr, status_at_set_ne _ _ _ _ h]
      · simp [retry_step, h1, h2, do_one_test_fst, hr, status_at_set_ne _ _ _ _ h]
  · simp [retry_step, h1]

theorem retry_step_status_self (tbl : List picoquic_test_def_t) (rs : retry_state)
    (i : Nat) (hlen : i < rs.test_status.length) :
    status_at (retry_step tbl rs i).test_status i =
      retry_status_spec tbl rs.test_status i := by
  by_cases h1 : status_at rs.test_status i = test_status_t.test_failed
  · by_cases h2 : non_retryable (name_at tbl i)
    · simp [retry_step, retry_status_spec, h1, h2]
    · by_cases hr : run_result tbl i 1 ≠ 0
      · simp [retry_step, retry_status_spec, h1, h2, do_one_test_fst, hr,
          status_at_set_self _ _ _ hlen]
      · simp [retry_step, retry_status_spec, h1, h2, do_one_test_fst, hr,
          status_at_set_self _ _ _ hlen]
  · simp [retry_step, retry_status_spec, h1]

theorem retry_step_invoked (tbl : List picoquic_test_def_t) (rs : retry_state)
    (i : Nat) :
    (retry_step tbl rs i).invoked =
      rs.invoked ++ (if retry_runs_b tbl rs.test_status i then [(i, 1)] else []) := by
  by_cases h1 : status_at rs.test_status i = test_status_t.test_failed
  · by_cases h2 : non_retryable (name_at tbl i)
    · simp [retry_step, retry_runs_b, h1, h2]
    · by_cases hr : run_result tbl i 1 ≠ 0
      · simp [retry_step, retry_runs_b, h1, h2, do_one_test_fst, hr]
      · simp [retry_step, retry_runs_b, h1, h2, do_one_test_fst, hr]
  · simp [retry_step, retry_runs_b, h1]

theorem retry_out_do_one_test (tbl : List picoquic_test_def_t) (i call : Nat) :
    ∀ e ∈ (do_one_test tbl i call).2, retry_out_ev e := by
  intro e he
  by_cases h : i < tbl.length
  · simp only [do_one_test, if_pos h] at he
    by_cases hr : run_result tbl i call = 0 <;> simp [hr] at he <;>
      rcases he with he | he <;> subst he <;> trivial
  · simp only [do_one_test, if_neg h] at he
    simp at he; subst he; trivial

theorem retry_step_out (tbl : List picoquic_test_def_t) (rs : retry_state)
    (i : Nat) :
    ∃ t, (retry_step tbl rs i).out = rs.out ++ t ∧ ∀ e ∈ t, retry_out_ev e := by
  by_cases h1 : status_at rs.test_status i = test_status_t.test_failed
  · by_cases h2 : non_retryable (name_at tbl i)
    · refine ⟨[out_event.cannot_retry (name_at tbl i)], by simp [retry_step, h1, h2], ?_⟩
      intro e he; simp at he; subst he; trivial
    · by_cases hr : run_result tbl i 1 ≠ 0
      · refine ⟨[out_event.retrying (name_at tbl i)] ++ (do_one_test tbl i 1).2,
          by simp [retry_step, h1, h2, do_one_test_fst, hr], ?_⟩
        intro e he
        rcases List.mem_append.mp he with h | h
        · simp at h; subst h; trivial
        · exact retry_out_do_one_test tbl i 1 e h
      · refine ⟨[out_event.retrying (name_at tbl i)] ++ (do_one_test tbl i 1).2,
          by simp [retry_step, h1, h2, do_one_test_fst, hr], ?_⟩
        intro e he
        rcases List.mem_append.mp he with h | h
        · simp at h; subst h; trivial
        · exact retry_out_do_one_test tbl i 1 e h
  · exact ⟨[], by simp [retry_step, h1], by simp⟩

theorem retry_step_ret_iff (tbl : List picoquic_test_def_t) (rs : retry_state)
    (i : Nat) (hlen : i < rs.test_status.length) :
    ((retry_step tbl rs i).ret = 0 ↔
      rs.ret = 0 ∧
        status_at (retry_step tbl rs i).test_status i ≠ test_status_t.test_failed) := by
  by_cases h1 : status_at rs.test_status i = test_status_t.test_failed
  · by_cases h2 : non_retryable (name_at tbl i)
    · simp [retry_step, h1, h2]
    · by_cases hr : run_result tbl i 1 ≠ 0
      · simp [retry_step, h1, h2, do_one_test_fst, hr, status_at_set_self _ _ _ hlen]
      · simp [retry_step, h1, h2, do_one_test_fst, hr, status_at_set_self _ _ _ hlen]
  · simp [retry_step, h1]

theorem retry_list_cons (tbl : List picoquic_test_def_t) (rs : retry_state)
    (i : Nat) (rest : List Nat) :
    retry_list tbl rs (i :: rest) = retry_list tbl (retry_step tbl rs i) rest := rfl

theorem retry_list_length (tbl : List picoquic_test_def_t) (l : List Nat)
    (rs : retry_state) :
    (retry_list tbl rs l).test_status.length = rs.test_status.length := by
  induction l generalizing rs with
  | nil => rfl
  | cons i rest ih => rw [retry_list_cons, ih, retry_step_length]

theorem retry_list_status_notmem (tbl : List picoquic_test_def_t) (l : List Nat)
    (rs : retry_state) (j : Nat) (hj : j ∉ l) :
    status_at (retry_list tbl rs l).test_status j = status_at rs.test_status j := by
  induction l generalizing rs with
  | nil => rfl
  | cons i rest ih =>
      rw [retry_list_cons, ih _ (fun h => hj (List.mem_cons_of_mem i h)),
        retry_step_status_ne]
      exact fun h => hj (h ▸ List.mem_cons_self i rest)

theorem retry_list_status (tbl : List picoquic_test_def_t) (l : List Nat)
    (rs : retry_state) (j : Nat) (hnd : l.Nodup) (hj : j ∈ l)
    (hlen : j < rs.test_status.length) :
    status_at (retry_list tbl rs l).test_status j =
      retry_status_spec tbl rs.test_status j := by
  induction l generalizing rs with
  | nil => cases hj
  | cons i rest ih =>
      rw [retry_list_cons]
      rcases List.mem_cons.mp hj with heq | hmem
      · subst heq
        rw [retry_list_status_notmem tbl rest _ j (List.Nodup.not_mem hnd),
          retry_step_status_self tbl rs j hlen]
      · have hne : j ≠ i := by
          intro h
          exact (List.Nodup.not_mem hnd) (h ▸ hmem)
        rw [ih (retry_step tbl rs i) (List.Nodup.of_cons hnd) hmem
            (by rw [retry_step_length]; exact hlen),
          retry_status_spec_congr tbl _ _ j
            (retry_step_status_ne tbl rs i j hne)]

theorem retry_list_invoked (tbl : List picoquic_test_def_t) (l : List Nat)
    (rs : retry_state) (hnd : l.Nodup) :
    (retry_list tbl rs l).invoked =
      rs.invoked ++
        (l.filter (retry_runs_b tbl rs.test_status)).map (fun j => (j, 1)) := by
  induction l generalizing rs with
  | nil => simp [retry_list]
  | cons i rest ih =>
      rw [retry_list_cons, ih _ (List.Nodup.of_cons hnd)]
      have hcongr : rest.filter (retry_runs_b tbl (retry_step tbl rs i).test_status) =
          rest.filter (retry_runs_b tbl rs.test_status) := by
        apply List.filter_congr
        intro j hj
        have hne : j ≠ i := fun heq => (List.Nodup.not_mem hnd) (heq ▸ hj)
        rw [retry_runs_b_congr tbl _ _ j (retry_step_status_ne tbl rs i j hne)]
      rw [hcongr, retry_step_invoked, List.filter_cons]
      by_cases h1 : retry_runs_b tbl rs.test_status i = true <;> simp [h1]

theorem retry_list_out (tbl : List picoquic_test_def_t) (l : List Nat)
    (rs : retry_state) :
    ∃ t, (retry_list tbl rs l).out = rs.out ++ t ∧ ∀ e ∈ t, retry_out_ev e := by
  induction l generalizing rs with
  | nil => exact ⟨[], by simp [retry_list], by simp⟩
  | cons i rest ih =>
      rw [retry_list_cons]
      obtain ⟨t1, ht1, he1⟩ := retry_step_out tbl rs i
      obtain ⟨t2, ht2, he2⟩ := ih (retry_step tbl rs i)
      refine ⟨t1 ++ t2, ?_, ?_⟩
      · rw [ht2, ht1, List.append_assoc]
      · intro e he
        rcases List.mem_append.mp he with h | h
        · exact he1 e h
        · exact he2 e h

theorem retry_list_ret_iff (tbl : List picoquic_test_def_t) (l : List Nat)
    (rs : retry_state) (hnd : l.Nodup)
    (hlen : ∀ j ∈ l, j < rs.test_status.length) :
    ((retry_list tbl rs l).ret = 0 ↔
      rs.ret = 0 ∧
        ∀ j ∈ l, status_at (retry_list tbl rs l).test_status j ≠
          test_status_t.test_failed) := by
  induction l generalizing rs with
  | nil => simp [retry_list]
  | cons i rest ih =>
      rw [retry_list_cons]
      have hstep := retry_step_ret_iff tbl rs i (hlen i (List.mem_cons_self i rest))
      have hfin_i : status_at (retry_list tbl (retry_step tbl rs i) rest).test_status i =
          status_at (retry_step tbl rs i).test_status i :=
        retry_list_status_notmem tbl rest _ i (List.Nodup.not_mem hnd)
      rw [ih (retry_step tbl rs i) (List.Nodup.of_cons hnd)
        (fun j hj => by rw [retry_step_length]; exact hlen j (List.mem_cons_of_mem i hj))]
      constructor
      · rintro ⟨hr0, hrest⟩
        have := hstep.mp hr0
        refine ⟨this.1, ?_⟩
        intro j hj
        rcases List.mem_cons.mp hj with heq | hmem
        · subst heq
          rw [hfin_i]
          exact this.2
        · exact hrest j hmem
      · rintro ⟨hr0, hall⟩
        refine ⟨hstep.mpr ⟨hr0, ?_⟩, ?_⟩
        · rw [← hfin_i]
          exact hall i (List.mem_cons_self i rest)
        · intro j hj
          exact hall j (List.mem_cons_of_mem i hj)

/-! ### The option parsing and selection stages -/

theorem process_x_names_usage (tbl : List picoquic_test_def_t)
    (names : List String) (st : parse_state)
    (h : st.ret ≠ 0 → err_event.usage_text ∈ st.err_out) :
    (process_x_names tbl names st).ret ≠ 0 →
      err_event.usage_text ∈ (process_x_names tbl names st).err_out := by
  induction names generalizing st with
  | nil => exact h
  | cons tn rest ih =>
      simp only [process_x_names, List.foldl_cons]
      apply ih
      by_cases hn : get_test_number tbl tn < 0
      · intro _
        simp [hn, usage_err]
      · intro hr
        simp only [hn, ite_false] at hr ⊢
        exact h hr

theorem process_opt_usage (tbl : List picoquic_test_def_t) (st : parse_state)
    (a : cli_arg) (h : st.ret ≠ 0 → err_event.usage_text ∈ st.err_out) :
    (process_opt tbl st a).ret ≠ 0 →
      err_event.usage_text ∈ (process_opt tbl st a).err_out := by
  cases a with
  | opt_x names => exact process_x_names_usage tbl names st h
  | opt_o n1 n2 =>
      by_cases hc : n1 < 0 ∨ n2 < 0 <;> simp [process_opt, hc, usage_err] <;> exact h
  | opt_s m =>
      by_cases hc : m ≤ 0 <;> simp [process_opt, hc, usage_err] <;> exact h
  | opt_f m =>
      by_cases hc : m ≤ 0 <;> simp [process_opt, hc, usage_err] <;> exact h
  | opt_cf r =>
      by_cases hc : r ≤ 0 <;> simp [process_opt, hc, usage_err] <;> exact h
  | opt_c m nb =>
      by_cases hc : m ≤ 0
      · simp [process_opt, hc, usage_err]
      · by_cases hc2 : nb < 0 <;> simp [process_opt, hc, hc2, usage_err] <;> exact h
  | opt_d p itv dir =>
      by_cases hc : p ≤ 0
      · simp [process_opt, hc, usage_err]
      · by_cases hc2 : st.cnx_stress_nb_cnx < 0 <;>
          simp [process_opt, hc, hc2, usage_err] <;> exact h
  | opt_sol dir => exact h
  | opt_n => exact h
  | opt_r => exact h
  | opt_bad => simp [process_opt, usage_only]

theorem process_args_usage (tbl : List picoquic_test_def_t) (args : List cli_arg)
    (st : parse_state)
    (h : st.ret ≠ 0 → err_event.usage_text ∈ st.err_out) :
    (process_args tbl args st).ret ≠ 0 →
      err_event.usage_text ∈ (process_args tbl args st).err_out := by
  induction args generalizing st with
  | nil => exact h
  | cons a rest ih =>
      by_cases hst : st.ret = 0
      · simp only [process_args, hst, if_pos]
        exact ih _ (process_opt_usage tbl st a h)
      · simp only [process_args, hst, ite_false]
        exact h

theorem select_names_usage (tbl : List picoquic_test_def_t)
    (names : List String) (st : parse_state)
    (h : st.ret ≠ 0 → err_event.usage_text ∈ st.err_out) :
    (select_names tbl names st).ret ≠ 0 →
      err_event.usage_text ∈ (select_names tbl names st).err_out := by
  induction names generalizing st with
  | nil => exact h
  | cons nm rest ih =>
      simp only [select_names, List.foldl_cons]
      apply ih
      by_cases hn : get_test_number tbl nm < 0
      · intro _
        simp [hn, usage_err]
      · intro hr
        simp only [hn, ite_false] at hr ⊢
        exact h hr

theorem after_getopt_eq_pos (tbl : List picoquic_test_def_t)
    (positional : List String) (st : parse_state) (hpos : positional ≠ []) :
    after_getopt tbl positional st =
      select_names tbl positional
        { st with
          auto_bypass := true,
          test_status := List.replicate tbl.length test_status_t.test_excluded } := by
  by_cases hm : any_mode st = true <;> simp [after_getopt, hm, hpos]

theorem after_getopt_eq_nil (tbl : List picoquic_test_def_t) (st : parse_state) :
    after_getopt tbl [] st =
      (if any_mode st then
        { st with
          auto_bypass := true,
          test_status := List.replicate tbl.length test_status_t.test_excluded }
       else st) := by
  simp [after_getopt]

theorem after_getopt_usage (tbl : List picoquic_test_def_t)
    (positional : List String) (st : parse_state)
    (h : st.ret ≠ 0 → err_event.usage_text ∈ st.err_out) :
    (after_getopt tbl positional st).ret ≠ 0 →
      err_event.usage_text ∈ (after_getopt tbl positional st).err_out := by
  by_cases hpos : positional = []
  · subst hpos
    rw [after_getopt_eq_nil]
    by_cases hm : any_mode st = true <;> simp [hm] <;> simpa using h
  · rw [after_getopt_eq_pos tbl positional st hpos]
    apply select_names_usage
    simpa using h

theorem parsed_usage (tbl : List picoquic_test_def_t) (args : List cli_arg)
    (positional : List String) :
    (parsed tbl args positional).ret ≠ 0 →
      err_event.usage_text ∈ (parsed tbl args positional).err_out := by
  apply after_getopt_usage
  apply process_args_usage
  intro h
  simp [init_state] at h

theorem status_at_set_cases (l : List test_status_t) (k j : Nat)
    (v : test_status_t) :
    status_at (l.set k v) j = v ∨ status_at (l.set k v) j = status_at l j := by
  by_cases hj : j = k
  · subst hj
    by_cases hk : j < l.length
    · exact Or.inl (status_at_set_self l j v hk)
    · right
      rw [List.set_eq_of_length_le (Nat.le_of_not_lt hk)]
  · exact Or.inr (status_at_set_ne l k j v hj)

/-- The selection stages only ever write test_not_run or test_excluded:
no status is test_success or test_failed before the sweep. -/
def sel_ok (l : List test_status_t) : Prop :=
  ∀ j, status_at l j = test_status_t.test_not_run ∨
       status_at l j = test_status_t.test_excluded

theorem sel_ok_replicate (n : Nat) (v : test_status_t)
    (hv : v = test_status_t.test_not_run ∨ v = test_status_t.test_excluded) :
    sel_ok (List.replicate n v) := by
  intro j
  by_cases hj : j < n
  · rw [status_at_replicate n j v hj]; exact hv
  · rw [status_at_of_le _ _ (by simpa using Nat.le_of_not_lt hj)]
    exact Or.inl rfl

theorem sel_ok_set (l : List test_status_t) (k : Nat) (v : test_status_t)
    (hl : sel_ok l)
    (hv : v = test_status_t.test_not_run ∨ v = test_status_t.test_excluded) :
    sel_ok (l.set k v) := by
  intro j
  rcases status_at_set_cases l k j v with h | h
  · rw [h]; exact hv
  · rw [h]; exact hl j

theorem process_x_names_sel (tbl : List picoquic_test_def_t)
    (names : List String) (st : parse_state) (h : sel_ok st.test_status) :
    sel_ok (process_x_names tbl names st).test_status := by
  induction names generalizing st with
  | nil => exact h
  | cons tn rest ih =>
      simp only [process_x_names, List.foldl_cons]
      apply ih
      by_cases hn : get_test_number tbl tn < 0
      · simpa [hn, usage_err] using h
      · simp only [hn, ite_false]
        exact sel_ok_set _ _ _ h (Or.inr rfl)

theorem process_opt_sel (tbl : List picoquic_test_def_t) (st : parse_state)
    (a : cli_arg) (h : sel_ok st.test_status) :
    sel_ok (process_opt tbl st a).test_status := by
  cases a with
  | opt_x names => exact process_x_names_sel tbl names st h
  | opt_o n1 n2 =>
      by_cases hc : n1 < 0 ∨ n2 < 0 <;> simpa [process_opt, hc, usage_err] using h
  | opt_s m => by_cases hc : m ≤ 0 <;> simpa [process_opt, hc, usage_err] using h
  | opt_f m => by_cases hc : m ≤ 0 <;> simpa [process_opt, hc, usage_err] using h
  | opt_cf r => by_cases hc : r ≤ 0 <;> simpa [process_opt, hc, usage_err] using h
  | opt_c m nb =>
      by_cases hc : m ≤ 0
      · simpa [process_opt, hc, usage_err] using h
      · by_cases hc2 : nb < 0 <;> simpa [process_opt, hc, hc2, usage_err] using h
  | opt_d p itv dir =>
      by_cases hc : p ≤ 0
      · simpa [process_opt, hc, usage_err] using h
      · by_cases hc2 : st.cnx_stress_nb_cnx < 0 <;>
          simpa [process_opt, hc, hc2, usage_err] using h
  | opt_sol dir => exact h
  | opt_n => exact h
  | opt_r => exact h
  | opt_bad => simpa [process_opt, usage_only] using h

theorem process_args_sel (tbl : List picoquic_test_def_t) (args : List cli_arg)
    (st : parse_state) (h : sel_ok st.test_status) :
    sel_ok (process_args tbl args st).test_status := by
  induction args generalizing st with
  | nil => exact h
  | cons a rest ih =>
      by_cases hst : st.ret = 0
      · simp only [process_args, hst, if_pos]
        exact ih _ (process_opt_sel tbl st a h)
      · simp only [process_args, hst, ite_false]
        exact h

theorem select_names_sel (tbl : List picoquic_test_def_t)
    (names : List String) (st : parse_state) (h : sel_ok st.test_status) :
    sel_ok (select_names tbl names st).test_status := by
  induction names generalizing st with
  | nil => exact h
  | cons nm rest ih =>
      simp only [select_names, List.foldl_cons]
      apply ih
      by_cases hn : get_test_number tbl nm < 0
      · simpa [hn, usage_err] using h
      · simp only [hn, ite_false]
        exact sel_ok_set _ _ _ h (Or.inl rfl)

theorem parsed_sel (tbl : List picoquic_test_def_t) (args : List cli_arg)
    (positional : List String) :
    sel_ok (parsed tbl args positional).test_status := by
  have hargs : sel_ok (args_state tbl args).test_status := by
    apply process_args_sel
    exact sel_ok_replicate _ _ (Or.inl rfl)
  by_cases hpos : positional = []
  · subst hpos
    unfold parsed
    rw [after_getopt_eq_nil]
    by_cases hm : any_mode (args_state tbl args) = true
    · simp only [hm, if_pos]
      exact sel_ok_replicate _ _ (Or.inr rfl)
    · simpa [hm] using hargs
  · unfold parsed
    rw [after_getopt_eq_pos _ _ _ hpos]
    apply select_names_sel
    exact sel_ok_replicate _ _ (Or.inr rfl)

theorem process_x_names_length (tbl : List picoquic_test_def_t)
    (names : List String) (st : parse_state) :
    (process_x_names tbl names st).test_status.length = st.test_status.length := by
  induction names generalizing st with
  | nil => rfl
  | cons tn rest ih =>
      simp only [process_x_names, List.foldl_cons]
      refine Eq.trans (ih _) ?_
      by_cases hn : get_test_number tbl tn < 0
      · simp [hn, usage_err]
      · simp [hn, List.length_set]

theorem process_opt_length (tbl : List picoquic_test_def_t) (st : parse_state)
    (a : cli_arg) :
    (process_opt tbl st a).test_status.length = st.test_status.length := by
  cases a with
  | opt_x names => exact process_x_names_length tbl names st
  | opt_o n1 n2 =>
      by_cases hc : n1 < 0 ∨ n2 < 0 <;> simp [process_opt, hc, usage_err]
  | opt_s m => by_cases hc : m ≤ 0 <;> simp [process_opt, hc, usage_err]
  | opt_f m => by_cases hc : m ≤ 0 <;> simp [process_opt, hc, usage_err]
  | opt_cf r => by_cases hc : r ≤ 0 <;> simp [process_opt, hc, usage_err]
  | opt_c m nb =>
      by_cases hc : m ≤ 0
      · simp [process_opt, hc, usage_err]
      · by_cases hc2 : nb < 0 <;> simp [process_opt, hc, hc2, usage_err]
  | opt_d p itv dir =>
      by_cases hc : p ≤ 0
      · simp [process_opt, hc, usage_err]
      · by_cases hc2 : st.cnx_stress_nb_cnx < 0 <;>
          simp [process_opt, hc, hc2, usage_err]
  | opt_sol dir => rfl
  | opt_n => rfl
  | opt_r => rfl
  | opt_bad => simp [process_opt, usage_only]

theorem process_args_length (tbl : List picoquic_test_def_t) (args : List cli_arg)
    (st : parse_state) :
    (process_args tbl args st).test_status.length = st.test_status.length := by
  induction args generalizing st with
  | nil => rfl
  | cons a rest ih =>
      by_cases hst : st.ret = 0
      · simp only [process_args, hst, if_pos]
        rw [ih, process_opt_length]
      · simp only [process_args, hst, ite_false]

theorem select_names_length (tbl : List picoquic_test_def_t)
    (names : List String) (st : parse_state) :
    (select_names tbl names st).test_status.length = st.test_status.length := by
  induction names generalizing st with
  | nil => rfl
  | cons nm rest ih =>
      simp only [select_names, List.foldl_cons]
      refine Eq.trans (ih _) ?_
      by_cases hn : get_test_number tbl nm < 0
      · simp [hn, usage_err]
      · simp [hn, List.length_set]

theorem parsed_length (tbl : List picoquic_test_def_t) (args : List cli_arg)
    (positional : List String) :
    (parsed tbl args positional).test_status.length = tbl.length := by
  have hargs : (args_state tbl args).test_status.length = tbl.length := by
    unfold args_state
    rw [process_args_length]
    simp [init_state]
  by_cases hpos : positional = []
  · subst hpos
    unfold parsed
    rw [after_getopt_eq_nil]
    by_cases hm : any_mode (args_state tbl args) = true
    · simp [hm]
    · simpa [hm] using hargs
  · unfold parsed
    rw [after_getopt_eq_pos _ _ _ hpos, select_names_length]
    simp

theorem process_x_names_ret_zero (tbl : List picoquic_test_def_t)
    (names : List String) (st : parse_state)
    (h : (process_x_names tbl names st).ret = 0) :
    st.ret = 0 ∧ ∀ nm ∈ names, ¬ get_test_number tbl nm < 0 := by
  induction names generalizing st with
  | nil => exact ⟨h, by simp⟩
  | cons tn rest ih =>
      simp only [process_x_names, List.foldl_cons] at h
      obtain ⟨hstep, hrest⟩ := ih _ h
      by_cases hn : get_test_number tbl tn < 0
      · simp [hn, usage_err] at hstep
      · simp only [hn, ite_false] at hstep
        refine ⟨hstep, ?_⟩
        intro nm hnm
        rcases List.mem_cons.mp hnm with heq | hmem
        · subst heq; exact hn
        · exact hrest nm hmem

theorem select_names_ret_zero (tbl : List picoquic_test_def_t)
    (names : List String) (st : parse_state)
    (h : (select_names tbl names st).ret = 0) :
    st.ret = 0 ∧ ∀ nm ∈ names, ¬ get_test_number tbl nm < 0 := by
  induction names generalizing st with
  | nil => exact ⟨h, by simp⟩
  | cons nm0 rest ih =>
      simp only [select_names, List.foldl_cons] at h
      obtain ⟨hstep, hrest⟩ := ih _ h
      by_cases hn : get_test_number tbl nm0 < 0
      · simp [hn, usage_err] at hstep
      · simp only [hn, ite_false] at hstep
        refine ⟨hstep, ?_⟩
        intro nm hnm
        rcases List.mem_cons.mp hnm with heq | hmem
        · subst heq; exact hn
        · exact hrest nm hmem

theorem process_args_ret_zero (tbl : List picoquic_test_def_t)
    (args : List cli_arg) (st : parse_state)
    (h : (process_args tbl args st).ret = 0) :
    st.ret = 0 ∧
      ∀ g, cli_arg.opt_x g ∈ args → ∀ nm ∈ g, ¬ get_test_number tbl nm < 0 := by
  induction args generalizing st with
  | nil => exact ⟨h, by simp⟩
  | cons a rest ih =>
      by_cases hst : st.ret = 0
      · simp only [process_args, hst, if_pos] at h
        obtain ⟨hstep, hrest⟩ := ih _ h
        refine ⟨hst, ?_⟩
        intro g hg nm hnm
        rcases List.mem_cons.mp hg with heq | hmem
        · subst heq
          exact (process_x_names_ret_zero tbl g st hstep).2 nm hnm
        · exact hrest g hmem nm hnm
      · simp [process_args, hst] at h

theorem after_getopt_ret_zero (tbl : List picoquic_test_def_t)
    (positional : List String) (st : parse_state)
    (h : (after_getopt tbl positional st).ret = 0) :
    st.ret = 0 ∧ ∀ nm ∈ positional, ¬ get_test_number tbl nm < 0 := by
  by_cases hpos : positional = []
  · subst hpos
    rw [after_getopt_eq_nil] at h
    refine ⟨?_, by simp⟩
    by_cases hm : any_mode st = true <;> simpa [hm] using h
  · rw [after_getopt_eq_pos _ _ _ hpos] at h
    have := select_names_ret_zero tbl positional _ h
    exact ⟨this.1, this.2⟩

theorem parsed_ret_zero (tbl : List picoquic_test_def_t) (args : List cli_arg)
    (positional : List String)
    (h : (parsed tbl args positional).ret = 0) :
    (∀ g, cli_arg.opt_x g ∈ args → ∀ nm ∈ g, ¬ get_test_number tbl nm < 0) ∧
    (∀ nm ∈ positional, ¬ get_test_number tbl nm < 0) := by
  unfold parsed at h
  obtain ⟨hargs, hpos⟩ := after_getopt_ret_zero tbl positional _ h
  exact ⟨(process_args_ret_zero tbl args _ hargs).2, hpos⟩

theorem select_names_fields (tbl : List picoquic_test_def_t)
    (names : List String) (st : parse_state) :
    (select_names tbl names st).auto_bypass = st.auto_bypass ∧
    (select_names tbl names st).first_test = st.first_test ∧
    (select_names tbl names st).last_test = st.last_test ∧
    (select_names tbl names st).disable_debug = st.disable_debug ∧
    (select_names tbl names st).retry_failed_test = st.retry_failed_test := by
  induction names generalizing st with
  | nil => exact ⟨rfl, rfl, rfl, rfl, rfl⟩
  | cons nm rest ih =>
      simp only [select_names, List.foldl_cons]
      obtain ⟨h1, h2, h3, h4, h5⟩ := ih
        (if get_test_number tbl nm < 0 then
          usage_err st err_event.incorrect_test_name_pos
         else
          { st with test_status := st.test_status.set (get_test_number tbl nm).toNat test_status_t.test_not_run })
      refine ⟨h1.trans ?_, h2.trans ?_, h3.trans ?_, h4.trans ?_, h5.trans ?_⟩ <;>
        by_cases hn : get_test_number tbl nm < 0 <;> simp [hn, usage_err]

theorem select_names_ret_err (tbl : List picoquic_test_def_t)
    (names : List String) (st : parse_state)
    (hgood : ∀ nm ∈ names, ¬ get_test_number tbl nm < 0) :
    (select_names tbl names st).ret = st.ret ∧
    (select_names tbl names st).err_out = st.err_out := by
  induction names generalizing st with
  | nil => exact ⟨rfl, rfl⟩
  | cons nm rest ih =>
      simp only [select_names, List.foldl_cons]
      have hn : ¬ get_test_number tbl nm < 0 := hgood nm (List.mem_cons_self nm rest)
      obtain ⟨h1, h2⟩ := ih
        (if get_test_number tbl nm < 0 then
          usage_err st err_event.incorrect_test_name_pos
         else
          { st with test_status := st.test_status.set (get_test_number tbl nm).toNat test_status_t.test_not_run })
        (fun nm2 h2 => hgood nm2 (List.mem_cons_of_mem nm h2))
      exact ⟨h1.trans (by simp [hn]), h2.trans (by simp [hn])⟩

theorem select_names_status (tbl : List picoquic_test_def_t)
    (names : List String) (st : parse_state) (j : Nat)
    (hgood : ∀ nm ∈ names, ¬ get_test_number tbl nm < 0)
    (hj : j < st.test_status.length) :
    status_at (select_names tbl names st).test_status j =
      (if ∃ nm ∈ names, (get_test_number tbl nm).toNat = j then
        test_status_t.test_not_run
       else status_at st.test_status j) := by
  induction names generalizing st with
  | nil => simp [select_names]
  | cons nm rest ih =>
      simp only [select_names, List.foldl_cons]
      have hn : ¬ get_test_number tbl nm < 0 := hgood nm (List.mem_cons_self nm rest)
      have hstep : (if get_test_number tbl nm < 0 then
            usage_err st err_event.incorrect_test_name_pos
           else
            { st with test_status := st.test_status.set (get_test_number tbl nm).toNat test_status_t.test_not_run }) =
          { st with test_status := st.test_status.set (get_test_number tbl nm).toNat test_status_t.test_not_run } := by
        simp [hn]
      rw [show (List.foldl
          (fun st nm =>
            if get_test_number tbl nm < 0 then
              usage_err st err_event.incorrect_test_name_pos
            else
              { st with test_status := st.test_status.set (get_test_number tbl nm).toNat test_status_t.test_not_run })
          (if get_test_number tbl nm < 0 then
            usage_err st err_event.incorrect_test_name_pos
           else
            { st with test_status := st.test_status.set (get_test_number tbl nm).toNat test_status_t.test_not_run })
          rest) = select_names tbl rest
            (if get_test_number tbl nm < 0 then
              usage_err st err_event.incorrect_test_name_pos
             else
              { st with test_status := st.test_status.set (get_test_number tbl nm).toNat test_status_t.test_not_run })
          from rfl, hstep]
      rw [ih _ (fun nm2 hm => hgood nm2 (List.mem_cons_of_mem nm hm))
        (by simpa [List.length_set] using hj)]
      by_cases hhead : (get_test_number tbl nm).toNat = j
      · subst hhead
        simp [status_at_set_self _ _ _ hj]
      · by_cases hrest : ∃ nm2 ∈ rest, (get_test_number tbl nm2).toNat = j
        · simp [hrest, hhead]
        · simp [hrest, hhead, status_at_set_ne _ _ _ _ (fun h => hhead h.symm)]

/-! ### The sweep stage of main -/

theorem swept_skip (tbl : List picoquic_test_def_t) (args : List cli_arg)
    (positional : List String) (h : (parsed tbl args positional).ret ≠ 0) :
    swept tbl args positional =
      { ret := (parsed tbl args positional).ret,
        test_status := (parsed tbl args positional).test_status,
        nb_test_tried := 0, nb_test_failed := 0, out := [], invoked := [] } := by
  simp [swept, h]

theorem swept_run (tbl : List picoquic_test_def_t) (args : List cli_arg)
    (positional : List String) (h : (parsed tbl args positional).ret = 0) :
    swept tbl args positional =
      run_sweep tbl (parsed tbl args positional).first_test
        (parsed tbl args positional).last_test
        (parsed tbl args positional).auto_bypass
        (parsed tbl args positional).test_status := by
  simp [swept, h]

theorem run_sweep_status (tbl : List picoquic_test_def_t) (first last : Nat)
    (ab : Bool) (st : List test_status_t) (j : Nat)
    (hlen : st.length = tbl.length) (hj : j < tbl.length) :
    status_at (run_sweep tbl first last ab st).test_status j =
      sweep_status_spec tbl first last st j := by
  apply sweep_list_status tbl first last ab (List.range tbl.length) _ j
    (List.nodup_range _) (List.mem_range.mpr hj)
  simpa [hlen] using hj

theorem run_sweep_status_ge (tbl : List picoquic_test_def_t) (first last : Nat)
    (ab : Bool) (st : List test_status_t) (j : Nat) (hj : tbl.length ≤ j) :
    status_at (run_sweep tbl first last ab st).test_status j = status_at st j := by
  apply sweep_list_status_notmem
  intro hmem
  exact Nat.not_lt_of_le hj (List.mem_range.mp hmem)

theorem run_sweep_length (tbl : List picoquic_test_def_t) (first last : Nat)
    (ab : Bool) (st : List test_status_t) :
    (run_sweep tbl first last ab st).test_status.length = st.length :=
  sweep_list_length tbl first last ab (List.range tbl.length) _

theorem run_sweep_tried (tbl : List picoquic_test_def_t) (first last : Nat)
    (ab : Bool) (st : List test_status_t) :
    (run_sweep tbl first last ab st).nb_test_tried =
      ((List.range tbl.length).filter
        (fun j => decide (status_at st j = test_status_t.test_not_run))).length := by
  have := sweep_list_tried tbl first last ab (List.range tbl.length)
    { ret := 0, test_status := st, nb_test_tried := 0, nb_test_failed := 0,
      out := [], invoked := [] } (List.nodup_range _)
  simpa [run_sweep] using this

theorem run_sweep_failed (tbl : List picoquic_test_def_t) (first last : Nat)
    (ab : Bool) (st : List test_status_t) :
    (run_sweep tbl first last ab st).nb_test_failed =
      ((List.range tbl.length).filter (sweep_fails_b tbl first last st)).length := by
  have := sweep_list_failed tbl first last ab (List.range tbl.length)
    { ret := 0, test_status := st, nb_test_tried := 0, nb_test_failed := 0,
      out := [], invoked := [] } (List.nodup_range _)
  simpa [run_sweep] using this

theorem run_sweep_invoked (tbl : List picoquic_test_def_t) (first last : Nat)
    (ab : Bool) (st : List test_status_t) :
    (run_sweep tbl first last ab st).invoked =
      ((List.range tbl.length).filter (sweep_runs_b first last st)).map
        (fun j => (j, 0)) := by
  have := sweep_list_invoked tbl first last ab (List.range tbl.length)
    { ret := 0, test_status := st, nb_test_tried := 0, nb_test_failed := 0,
      out := [], invoked := [] } (List.nodup_range _)
  simpa [run_sweep] using this

theorem run_sweep_ret_of_nofail (tbl : List picoquic_test_def_t) (first last : Nat)
    (ab : Bool) (st : List test_status_t)
    (h : ∀ j ∈ List.range tbl.length, sweep_fails_b tbl first last st j = false) :
    (run_sweep tbl first last ab st).ret = 0 := by
  have := sweep_list_ret_of_nofail tbl first last ab (List.range tbl.length)
    { ret := 0, test_status := st, nb_test_tried := 0, nb_test_failed := 0,
      out := [], invoked := [] } (List.nodup_range _) h
  simpa [run_sweep] using this

theorem run_sweep_out (tbl : List picoquic_test_def_t) (first last : Nat)
    (ab : Bool) (st : List test_status_t) :
    ∀ e ∈ (run_sweep tbl first last ab st).out, sweep_out_ev ab e := by
  obtain ⟨t, ht, he⟩ := sweep_list_out tbl first last ab (List.range tbl.length)
    { ret := 0, test_status := st, nb_test_tried := 0, nb_test_failed := 0,
      out := [], invoked := [] }
  intro e hmem
  rw [show run_sweep tbl first last ab st =
    sweep_list tbl first last ab
      { ret := 0, test_status := st, nb_test_tried := 0, nb_test_failed := 0,
        out := [], invoked := [] } (List.range tbl.length) from rfl, ht] at hmem
  exact he e (by simpa using hmem)

theorem swept_length (tbl : List picoquic_test_def_t) (args : List cli_arg)
    (positional : List String) :
    (swept tbl args positional).test_status.length = tbl.length := by
  by_cases h : (parsed tbl args positional).ret = 0
  · rw [swept_run tbl args positional h, run_sweep_length, parsed_length]
  · rw [swept_skip tbl args positional h]
    exact parsed_length tbl args positional

theorem swept_out (tbl : List picoquic_test_def_t) (args : List cli_arg)
    (positional : List String) :
    ∀ e ∈ (swept tbl args positional).out,
      sweep_out_ev (parsed tbl args positional).auto_bypass e := by
  by_cases h : (parsed tbl args positional).ret = 0
  · rw [swept_run tbl args positional h]
    exact run_sweep_out tbl _ _ _ _
  · rw [swept_skip tbl args positional h]
    intro e he
    simp at he

/-- A failed status after the sweep pins down the whole situation: the
parse succeeded, the index is a real table index that was selected and in
range, its first run failed, and the failure counter is positive. -/
theorem swept_failed_pos (tbl : List picoquic_test_def_t) (args : List cli_arg)
    (positional : List String) (i : Nat)
    (h : status_at (swept tbl args positional).test_status i =
      test_status_t.test_failed) :
    (parsed tbl args positional).ret = 0 ∧ i < tbl.length ∧
    sweep_fails_b tbl (parsed tbl args positional).first_test
      (parsed tbl args positional).last_test
      (parsed tbl args positional).test_status i = true ∧
    (swept tbl args positional).nb_test_failed > 0 := by
  have hret : (parsed tbl args positional).ret = 0 := by
    by_contra hret
    rw [swept_skip tbl args positional hret] at h
    rcases parsed_sel tbl args positional i with hs | hs <;> simp [hs] at h
  have hi : i < tbl.length := by
    by_contra hi
    have hge := status_at_of_le (swept tbl args positional).test_status i
      (by rw [swept_length tbl args positional]; exact Nat.le_of_not_lt hi)
    rw [hge] at h
    cases h
  rw [swept_run tbl args positional hret] at h
  rw [run_sweep_status tbl _ _ _ _ i (parsed_length tbl args positional) hi] at h
  have hfail : sweep_fails_b tbl (parsed tbl args positional).first_test
      (parsed tbl args positional).last_test
      (parsed tbl args positional).test_status i = true := by
    by_cases hnr : status_at (parsed tbl args positional).test_status i =
        test_status_t.test_not_run
    · simp only [sweep_status_spec, hnr, if_pos] at h
      by_cases hc : (parsed tbl args positional).first_test ≤ i ∧
          i ≤ (parsed tbl args positional).last_test ∧
          run_result tbl i 0 ≠ 0
      · simp [sweep_fails_b, sweep_runs_b, hnr, hc.1, hc.2.1, hc.2.2]
      · simp [hc] at h
    · simp only [sweep_status_spec, hnr, ite_false] at h
      rcases parsed_sel tbl args positional i with hs | hs <;> rw [hs] at h <;> cases h
  refine ⟨hret, hi, hfail, ?_⟩
  rw [swept_run tbl args positional hret, run_sweep_failed]
  have hmem : i ∈ (List.range tbl.length).filter
      (sweep_fails_b tbl (parsed tbl args positional).first_test
        (parsed tbl args positional).last_test
        (parsed tbl args positional).test_status) :=
    List.mem_filter.mpr ⟨List.mem_range.mpr hi, hfail⟩
  exact List.length_pos.mpr (List.ne_nil_of_mem hmem)

/-! ### The retry pass and the report stage of main -/

theorem retry_pass_length (tbl : List picoquic_test_def_t)
    (st : List test_status_t) :
    (retry_pass tbl st).test_status.length = st.length :=
  retry_list_length tbl (List.range tbl.length) _

theorem retry_pass_status (tbl : List picoquic_test_def_t)
    (st : List test_status_t) (j : Nat) (hlen : st.length = tbl.length)
    (hj : j < tbl.length) :
    status_at (retry_pass tbl st).test_status j = retry_status_spec tbl st j := by
  apply retry_list_status tbl (List.range tbl.length) _ j
    (List.nodup_range _) (List.mem_range.mpr hj)
  simpa [hlen] using hj

theorem retry_pass_status_ge (tbl : List picoquic_test_def_t)
    (st : List test_status_t) (j : Nat) (hj : tbl.length ≤ j) :
    status_at (retry_pass tbl st).test_status j = status_at st j := by
  apply retry_list_status_notmem
  intro hmem
  exact Nat.not_lt_of_le hj (List.mem_range.mp hmem)

theorem retry_pass_invoked (tbl : List picoquic_test_def_t)
    (st : List test_status_t) :
    (retry_pass tbl st).invoked =
      ((List.range tbl.length).filter (retry_runs_b tbl st)).map (fun j => (j, 1)) := by
  have := retry_list_invoked tbl (List.range tbl.length)
    { ret := 0, test_status := st, out := [], invoked := [] } (List.nodup_range _)
  simpa [retry_pass] using this

theorem retry_pass_out (tbl : List picoquic_test_def_t)
    (st : List test_status_t) :
    ∀ e ∈ (retry_pass tbl st).out, retry_out_ev e := by
  obtain ⟨t, ht, he⟩ := retry_list_out tbl (List.range tbl.length)
    { ret := 0, test_status := st, out := [], invoked := [] }
  intro e hmem
  rw [show retry_pass tbl st = retry_list tbl
      { ret := 0, test_status := st, out := [], invoked := [] }
      (List.range tbl.length) from rfl, ht] at hmem
  exact he e (by simpa using hmem)

theorem retry_pass_ret_iff (tbl : List picoquic_test_def_t)
    (st : List test_status_t) (hlen : st.length = tbl.length) :
    ((retry_pass tbl st).ret = 0 ↔
      ∀ j, status_at (retry_pass tbl st).test_status j ≠
        test_status_t.test_failed) := by
  have hiff := retry_list_ret_iff tbl (List.range tbl.length)
    { ret := 0, test_status := st, out := [], invoked := [] } (List.nodup_range _)
    (fun j hj => by simpa [hlen] using List.mem_range.mp hj)
  rw [show retry_pass tbl st = retry_list tbl
      { ret := 0, test_status := st, out := [], invoked := [] }
      (List.range tbl.length) from rfl]
  rw [hiff]
  constructor
  · rintro ⟨-, hall⟩
    intro j
    by_cases hj : j < tbl.length
    · exact hall j (List.mem_range.mpr hj)
    · rw [retry_list_status_notmem tbl _ _ j
        (fun hmem => hj (List.mem_range.mp hmem))]
      simp only [retry_state.mk.injEq]
      rw [status_at_of_le st j (by rw [hlen]; exact Nat.le_of_not_lt hj)]
      intro hcon
      cases hcon
  · intro hall
    exact ⟨rfl, fun j _ => hall j⟩

theorem retry_pass_frame (tbl : List picoquic_test_def_t)
    (st : List test_status_t) (j : Nat) (hlen : st.length = tbl.length)
    (h : status_at (retry_pass tbl st).test_status j ≠ status_at st j) :
    status_at st j = test_status_t.test_failed ∧
    status_at (retry_pass tbl st).test_status j = test_status_t.test_success := by
  by_cases hj : j < tbl.length
  · rw [retry_pass_status tbl st j hlen hj] at h ⊢
    by_cases hf : status_at st j = test_status_t.test_failed
    · refine ⟨hf, ?_⟩
      simp only [retry_status_spec, hf, if_pos] at h ⊢
      by_cases hb : non_retryable (name_at tbl j)
      · simp [hb, hf] at h
      · by_cases hr : run_result tbl j 1 ≠ 0
        · simp [hb, hr, hf] at h
        · simp [hb, hr]
    · simp [retry_status_spec, hf] at h
  · rw [retry_pass_status_ge tbl st j (Nat.le_of_not_lt hj)] at h
    exact absurd rfl h

theorem main_run_nofail (tbl : List picoquic_test_def_t) (args : List cli_arg)
    (positional : List String)
    (h : (swept tbl args positional).nb_test_failed = 0) :
    main_run tbl args positional =
      { ret := (swept tbl args positional).ret,
        test_status := (swept tbl args positional).test_status,
        nb_test_tried := (swept tbl args positional).nb_test_tried,
        nb_test_failed := (swept tbl args positional).nb_test_failed,
        out := (swept tbl args positional).out ++
          (if (swept tbl args positional).nb_test_tried > 1 then
            [out_event.summary (swept tbl args positional).nb_test_tried
              (swept tbl args positional).nb_test_failed
              (if (swept tbl args positional).nb_test_failed > 1 then "" else "s")]
           else []),
        err := (parsed tbl args positional).err_out,
        invoked := (swept tbl args positional).invoked } := by
  simp [main_run, h]

theorem main_run_noretry (tbl : List picoquic_test_def_t) (args : List cli_arg)
    (positional : List String)
    (hf : (swept tbl args positional).nb_test_failed > 0)
    (hnr : ¬ ((parsed tbl args positional).disable_debug = true ∧
      (parsed tbl args positional).retry_failed_test = true)) :
    main_run tbl args positional =
      { ret := (swept tbl args positional).ret,
        test_status := (swept tbl args positional).test_status,
        nb_test_tried := (swept tbl args positional).nb_test_tried,
        nb_test_failed := (swept tbl args positional).nb_test_failed,
        out := ((swept tbl args positional).out ++
          (if (swept tbl args positional).nb_test_tried > 1 then
            [out_event.summary (swept tbl args positional).nb_test_tried
              (swept tbl args positional).nb_test_failed
              (if (swept tbl args positional).nb_test_failed > 1 then "" else "s")]
           else [])) ++
          [out_event.failed_list
            (failed_names tbl (swept tbl args positional).test_status)],
        err := (parsed tbl args positional).err_out,
        invoked := (swept tbl args positional).invoked } := by
  simp [main_run, hf, hnr]

theorem main_run_retry (tbl : List picoquic_test_def_t) (args : List cli_arg)
    (positional : List String)
    (hf : (swept tbl args positional).nb_test_failed > 0)
    (hd : (parsed tbl args positional).disable_debug = true)
    (hr : (parsed tbl args positional).retry_failed_test = true) :
    main_run tbl args positional =
      { ret := (retry_pass tbl (swept tbl args positional).test_status).ret,
        test_status := (retry_pass tbl (swept tbl args positional).test_status).test_status,
        nb_test_tried := (swept tbl args positional).nb_test_tried,
        nb_test_failed := (swept tbl args positional).nb_test_failed,
        out := (((swept tbl args positional).out ++
          (if (swept tbl args positional).nb_test_tried > 1 then
            [out_event.summary (swept tbl args positional).nb_test_tried
              (swept tbl args positional).nb_test_failed
              (if (swept tbl args positional).nb_test_failed > 1 then "" else "s")]
           else [])) ++
          [out_event.failed_list
            (failed_names tbl (swept tbl args positional).test_status)]) ++
          (retry_pass tbl (swept tbl args positional).test_status).out ++
          (if (retry_pass tbl (swept tbl args positional).test_status).ret = 0 then
            [out_event.all_pass]
           else
            [out_event.still_failing (failed_names tbl
              (retry_pass tbl (swept tbl args positional).test_status).test_status)]),
        err := (parsed tbl args positional).err_out,
        invoked := (swept tbl args positional).invoked ++
          (retry_pass tbl (swept tbl args positional).test_status).invoked } := by
  simp [main_run, hf, hd, hr]

theorem parsed_pos_state (tbl : List picoquic_test_def_t) (args : List cli_arg)
    (positional : List String) (hpos : positional ≠ [])
    (hgood : ∀ nm ∈ positional, ¬ get_test_number tbl nm < 0) :
    (parsed tbl args positional).auto_bypass = true ∧
    ∀ j, j < tbl.length →
      status_at (parsed tbl args positional).test_status j =
        (if ∃ nm ∈ positional, (get_test_number tbl nm).toNat = j then
          test_status_t.test_not_run
         else test_status_t.test_excluded) := by
  unfold parsed
  rw [after_getopt_eq_pos _ _ _ hpos]
  constructor
  · exact (select_names_fields tbl positional _).1
  · intro j hj
    rw [select_names_status tbl positional _ j hgood (by simpa using hj)]
    by_cases hex : ∃ nm ∈ positional, (get_test_number tbl nm).toNat = j <;>
      simp [hex, status_at_replicate _ _ _ hj]

theorem parsed_mode_state (tbl : List picoquic_test_def_t) (args : List cli_arg)
    (hm : any_mode (args_state tbl args) = true) :
    parsed tbl args [] =
      { args_state tbl args with
        auto_bypass := true,
        test_status := List.replicate tbl.length test_status_t.test_excluded } := by
  unfold parsed
  rw [after_getopt_eq_nil]
  simp [hm]

/-! ### The claims -/

/-- C1, counterexample.  The claim states that with a configured ordinal
range, a NotRun entry whose ordinal lies outside the range still has status
NotRun when the sweep ends and is not counted among the tried tests.  On
the concrete registry of four succeeding dtn tests with range [2,3], entry 0
is outside the range, yet it ends with status test_success (not
test_not_run) and the tried counter is 4, counting both out-of-range
entries 0 and 1. -/
theorem c1_counterexample :
    status_at (main_run tbl_ok [cli_arg.opt_o 2 3] []).test_status 0 =
      test_status_t.test_success ∧
    status_at (main_run tbl_ok [cli_arg.opt_o 2 3] []).test_status 0 ≠
      test_status_t.test_not_run ∧
    (main_run tbl_ok [cli_arg.opt_o 2 3] []).nb_test_tried = 4 := by
  refine ⟨by decide, by decide, by decide⟩

/-- C1, amended.  In the default sweep with a configured ordinal range, a
selected (NotRun) registry entry whose ordinal lies outside [first,last]
ends with status test_success (not test_not_run), its test function is
never invoked, and it IS counted among the tried tests: the tried total is
the number of all selected entries regardless of the range. -/
theorem c1_amended (tbl : List picoquic_test_def_t) (args : List cli_arg)
    (positional : List String) (i : Nat)
    (hret : (parsed tbl args positional).ret = 0)
    (hnr : status_at (parsed tbl args positional).test_status i =
      test_status_t.test_not_run)
    (hi : i < tbl.length)
    (hout : i < (parsed tbl args positional).first_test ∨
      (parsed tbl args positional).last_test < i) :
    status_at (swept tbl args positional).test_status i =
      test_status_t.test_success ∧
    (∀ c, (i, c) ∉ (swept tbl args positional).invoked) ∧
    (swept tbl args positional).nb_test_tried =
      ((List.range tbl.length).filter (fun j =>
        decide (status_at (parsed tbl args positional).test_status j =
          test_status_t.test_not_run))).length := by
  rw [swept_run tbl args positional hret]
  refine ⟨?_, ?_, run_sweep_tried tbl _ _ _ _⟩
  · rw [run_sweep_status tbl _ _ _ _ i (parsed_length tbl args positional) hi]
    have hcond : ¬ ((parsed tbl args positional).first_test ≤ i ∧
        i ≤ (parsed tbl args positional).last_test ∧ run_result tbl i 0 ≠ 0) := by
      rcases hout with h | h
      · intro hcon; omega
      · intro hcon; omega
    simp [sweep_status_spec, hnr, hcond]
  · intro c hmem
    rw [run_sweep_invoked] at hmem
    obtain ⟨j, hj, hje⟩ := List.mem_map.mp hmem
    have hji : j = i := ((Prod.mk.injEq j 0 i c).mp hje).1
    subst hji
    have hrb := (List.mem_filter.mp hj).2
    simp only [sweep_runs_b, Bool.and_eq_true, decide_eq_true_eq] at hrb
    obtain ⟨⟨-, hB⟩, hC⟩ := hrb
    rcases hout with h | h <;> omega

/-- C1 witness. -/
theorem c1_witness :
    ((parsed tbl_ok [cli_arg.opt_o 2 3] []).ret = 0 ∧
     status_at (parsed tbl_ok [cli_arg.opt_o 2 3] []).test_status 0 =
       test_status_t.test_not_run ∧
     0 < tbl_ok.length ∧
     0 < (parsed tbl_ok [cli_arg.opt_o 2 3] []).first_test) ∧
    (status_at (swept tbl_ok [cli_arg.opt_o 2 3] []).test_status 0 =
       test_status_t.test_success ∧
     (∀ c, (0, c) ∉ (swept tbl_ok [cli_arg.opt_o 2 3] []).invoked) ∧
     (swept tbl_ok [cli_arg.opt_o 2 3] []).nb_test_tried =
       ((List.range tbl_ok.length).filter (fun j =>
         decide (status_at (parsed tbl_ok [cli_arg.opt_o 2 3] []).test_status j =
           test_status_t.test_not_run))).length) :=
  ⟨⟨by decide, by decide, by decide, by decide⟩,
    c1_amended tbl_ok [cli_arg.opt_o 2 3] [] 0 (by decide) (by decide) (by decide)
      (Or.inl (by decide))⟩

/-- C6: for every configured ordinal range, a registry entry whose ordinal
lies outside [first,last] is never invoked during the default sweep,
whatever its exclusion state: no invocation of that index, at any
invocation ordinal, appears in the sweep's invocation log. -/
theorem c6_theorem (tbl : List picoquic_test_def_t) (args : List cli_arg)
    (positional : List String) (i c : Nat)
    (hout : i < (parsed tbl args positional).first_test ∨
      (parsed tbl args positional).last_test < i) :
    (i, c) ∉ (swept tbl args positional).invoked := by
  by_cases hret : (parsed tbl args positional).ret = 0
  · rw [swept_run tbl args positional hret, run_sweep_invoked]
    intro hmem
    obtain ⟨j, hj, hje⟩ := List.mem_map.mp hmem
    have hji : j = i := ((Prod.mk.injEq j 0 i c).mp hje).1
    subst hji
    have hrb := (List.mem_filter.mp hj).2
    simp only [sweep_runs_b, Bool.and_eq_true, decide_eq_true_eq] at hrb
    obtain ⟨⟨-, hB⟩, hC⟩ := hrb
    rcases hout with h | h <;> omega
  · rw [swept_skip tbl args positional hret]
    simp

/-- C6 witness. -/
theorem c6_witness :
    0 < (parsed tbl_ok [cli_arg.opt_o 2 3] []).first_test ∧
    (0, 0) ∉ (swept tbl_ok [cli_arg.opt_o 2 3] []).invoked :=
  ⟨by decide,
    c6_theorem tbl_ok [cli_arg.opt_o 2 3] [] 0 0 (Or.inl (by decide))⟩

/-- C10: with a successfully parsed command line whose ordinal range is
empty (first greater than last), the sweep invokes nothing, every selected
(NotRun) entry is nevertheless set to test_success and counted as tried,
no failure is recorded, the summary line (printed whenever more than one
test was counted) reports zero failures, and the process result is 0. -/
theorem c10_theorem (tbl : List picoquic_test_def_t) (args : List cli_arg)
    (positional : List String)
    (hret : (parsed tbl args positional).ret = 0)
    (hempty : (parsed tbl args positional).last_test <
      (parsed tbl args positional).first_test) :
    (main_run tbl args positional).invoked = [] ∧
    (main_run tbl args positional).nb_test_failed = 0 ∧
    (main_run tbl args positional).ret = 0 ∧
    (∀ j, j < tbl.length →
      status_at (parsed tbl args positional).test_status j =
        test_status_t.test_not_run →
      status_at (main_run tbl args positional).test_status j =
        test_status_t.test_success) ∧
    (main_run tbl args positional).nb_test_tried =
      ((List.range tbl.length).filter (fun j =>
        decide (status_at (parsed tbl args positional).test_status j =
          test_status_t.test_not_run))).length ∧
    ((main_run tbl args positional).nb_test_tried > 1 →
      out_event.summary (main_run tbl args positional).nb_test_tried 0 "s" ∈
        (main_run tbl args positional).out) := by
  have hdis : ∀ j : Nat, ¬ ((parsed tbl args positional).first_test ≤ j) ∨
      ¬ (j ≤ (parsed tbl args positional).last_test) := by
    intro j
    omega
  have hnor : ∀ j, sweep_runs_b (parsed tbl args positional).first_test
      (parsed tbl args positional).last_test
      (parsed tbl args positional).test_status j = false := by
    intro j
    rcases hdis j with h | h <;> simp [sweep_runs_b, h]
  have hnof : ∀ j ∈ List.range tbl.length,
      sweep_fails_b tbl (parsed tbl args positional).first_test
        (parsed tbl args positional).last_test
        (parsed tbl args positional).test_status j = false := by
    intro j _
    simp [sweep_fails_b, hnor j]
  have hsfail : (swept tbl args positional).nb_test_failed = 0 := by
    rw [swept_run tbl args positional hret, run_sweep_failed]
    rw [List.filter_eq_nil_iff.mpr (by intro a ha; simp [hnof a ha])]
    rfl
  have hsinv : (swept tbl args positional).invoked = [] := by
    rw [swept_run tbl args positional hret, run_sweep_invoked]
    rw [List.filter_eq_nil_iff.mpr (by intro a ha; simp [hnor a])]
    rfl
  have hsret : (swept tbl args positional).ret = 0 := by
    rw [swept_run tbl args positional hret]
    exact run_sweep_ret_of_nofail tbl _ _ _ _ hnof
  rw [main_run_nofail tbl args positional hsfail]
  refine ⟨hsinv, hsfail, hsret, ?_, ?_, ?_⟩
  · intro j hj hnr
    rw [swept_run tbl args positional hret,
      run_sweep_status tbl _ _ _ _ j (parsed_length tbl args positional) hj]
    have hcond : ¬ ((parsed tbl args positional).first_test ≤ j ∧
        j ≤ (parsed tbl args positional).last_test ∧ run_result tbl j 0 ≠ 0) := by
      intro hcon
      omega
    simp [sweep_status_spec, hnr, hcond]
  · rw [swept_run tbl args positional hret, run_sweep_tried]
  · intro htried
    refine List.mem_append_right _ ?_
    simp only at htried
    rw [if_pos htried, hsfail]
    simp

/-- C10 witness. -/
theorem c10_witness :
    ((parsed tbl_ok [cli_arg.opt_o 5 3] []).ret = 0 ∧
     (parsed tbl_ok [cli_arg.opt_o 5 3] []).last_test <
       (parsed tbl_ok [cli_arg.opt_o 5 3] []).first_test) ∧
    ((main_run tbl_ok [cli_arg.opt_o 5 3] []).invoked = [] ∧
     (main_run tbl_ok [cli_arg.opt_o 5 3] []).nb_test_failed = 0 ∧
     (main_run tbl_ok [cli_arg.opt_o 5 3] []).ret = 0 ∧
     (∀ j, j < tbl_ok.length →
       status_at (parsed tbl_ok [cli_arg.opt_o 5 3] []).test_status j =
         test_status_t.test_not_run →
       status_at (main_run tbl_ok [cli_arg.opt_o 5 3] []).test_status j =
         test_status_t.test_success) ∧
     (main_run tbl_ok [cli_arg.opt_o 5 3] []).nb_test_tried =
       ((List.range tbl_ok.length).filter (fun j =>
         decide (status_at (parsed tbl_ok [cli_arg.opt_o 5 3] []).test_status j =
           test_status_t.test_not_run))).length ∧
     ((main_run tbl_ok [cli_arg.opt_o 5 3] []).nb_test_tried > 1 →
       out_event.summary (main_run tbl_ok [cli_arg.opt_o 5 3] []).nb_test_tried 0 "s" ∈
         (main_run tbl_ok [cli_arg.opt_o 5 3] []).out)) :=
  ⟨⟨by decide, by decide⟩,
    c10_theorem tbl_ok [cli_arg.opt_o 5 3] [] (by decide) (by decide)⟩

/-- C2, counterexample.  The claim states that requesting an alternative
mode forces every entry to Excluded and suppresses the sweep even when a
trailing positional test-name list is present.  With -s 5 and the trailing
positional name dtn_basic, the stress flag is set, yet dtn_basic is
re-selected by the positional block, is invoked by the sweep, and ends
test_success rather than test_excluded. -/
theorem c2_counterexample :
    any_mode (args_state tbl_ok [cli_arg.opt_s 5]) = true ∧
    (main_run tbl_ok [cli_arg.opt_s 5] ["dtn_basic"]).invoked = [(0, 0)] ∧
    status_at (main_run tbl_ok [cli_arg.opt_s 5] ["dtn_basic"]).test_status 0 =
      test_status_t.test_success := by
  refine ⟨by decide, by decide, by decide⟩

/-- C2, amended.  When an alternative execution mode (stress, fuzz,
connection-stress, connection-ddos or corrupted-file fuzz) is requested and
no trailing positional test-name list is present, every registry entry is
forced to Excluded, the sweep counts nothing as tried and no test function
is ever invoked; a trailing positional list, by contrast, re-selects its
named tests, which do run. -/
theorem c2_amended (tbl : List picoquic_test_def_t) (args : List cli_arg)
    (hm : any_mode (args_state tbl args) = true) :
    (∀ j, j < tbl.length →
      status_at (main_run tbl args []).test_status j =
        test_status_t.test_excluded) ∧
    (main_run tbl args []).invoked = [] ∧
    (main_run tbl args []).nb_test_tried = 0 := by
  have hst : ∀ j, j < tbl.length →
      status_at (parsed tbl args []).test_status j =
        test_status_t.test_excluded := by
    intro j hj
    rw [parsed_mode_state tbl args hm]
    exact status_at_replicate _ _ _ hj
  have hnor : ∀ j ∈ List.range tbl.length,
      sweep_runs_b (parsed tbl args []).first_test
        (parsed tbl args []).last_test
        (parsed tbl args []).test_status j = false := by
    intro j hj
    simp [sweep_runs_b, hst j (List.mem_range.mp hj)]
  have hnof : ∀ j ∈ List.range tbl.length,
      sweep_fails_b tbl (parsed tbl args []).first_test
        (parsed tbl args []).last_test
        (parsed tbl args []).test_status j = false := by
    intro j hj
    simp [sweep_fails_b, hnor j hj]
  have hsstat : ∀ j, j < tbl.length →
      status_at (swept tbl args []).test_status j =
        test_status_t.test_excluded := by
    intro j hj
    by_cases hret : (parsed tbl args []).ret = 0
    · rw [swept_run tbl args [] hret,
        run_sweep_status tbl _ _ _ _ j (parsed_length tbl args []) hj]
      simp [sweep_status_spec, hst j hj]
    · rw [swept_skip tbl args [] hret]
      exact hst j hj
  have hsinv : (swept tbl args []).invoked = [] := by
    by_cases hret : (parsed tbl args []).ret = 0
    · rw [swept_run tbl args [] hret, run_sweep_invoked]
      rw [List.filter_eq_nil_iff.mpr (by intro a ha; simp [hnor a ha])]
      rfl
    · rw [swept_skip tbl args [] hret]
  have hstried : (swept tbl args []).nb_test_tried = 0 := by
    by_cases hret : (parsed tbl args []).ret = 0
    · rw [swept_run tbl args [] hret, run_sweep_tried]
      rw [List.filter_eq_nil_iff.mpr ?_]
      · rfl
      · intro a ha
        simp [hst a (List.mem_range.mp ha)]
    · rw [swept_skip tbl args [] hret]
  have hsfail : (swept tbl args []).nb_test_failed = 0 := by
    by_cases hret : (parsed tbl args []).ret = 0
    · rw [swept_run tbl args [] hret, run_sweep_failed]
      rw [List.filter_eq_nil_iff.mpr (by intro a ha; simp [hnof a ha])]
      rfl
    · rw [swept_skip tbl args [] hret]
  rw [main_run_nofail tbl args [] hsfail]
  exact ⟨hsstat, hsinv, hstried⟩

/-- C2 witness. -/
theorem c2_witness :
    any_mode (args_state tbl_ok [cli_arg.opt_s 5]) = true ∧
    ((∀ j, j < tbl_ok.length →
      status_at (main_run tbl_ok [cli_arg.opt_s 5] []).test_status j =
        test_status_t.test_excluded) ∧
    (main_run tbl_ok [cli_arg.opt_s 5] []).invoked = [] ∧
    (main_run tbl_ok [cli_arg.opt_s 5] []).nb_test_tried = 0) :=
  ⟨by decide, c2_amended tbl_ok [cli_arg.opt_s 5] (by decide)⟩

/-- Every stdout line of one whole run is one of: a sweep-loop line, the
aggregate summary (only when more than one test was tried), the failed-test
list, a retry-loop line, the all-clear line, or the still-failing list. -/
theorem main_out_cases (tbl : List picoquic_test_def_t) (args : List cli_arg)
    (positional : List String) (e : out_event)
    (he : e ∈ (main_run tbl args positional).out) :
    e ∈ (swept tbl args positional).out ∨
    ((swept tbl args positional).nb_test_tried > 1 ∧
      e = out_event.summary (swept tbl args positional).nb_test_tried
        (swept tbl args positional).nb_test_failed
        (if (swept tbl args positional).nb_test_failed > 1 then "" else "s")) ∨
    e = out_event.failed_list
      (failed_names tbl (swept tbl args positional).test_status) ∨
    e ∈ (retry_pass tbl (swept tbl args positional).test_status).out ∨
    e = out_event.all_pass ∨
    e = out_event.still_failing (failed_names tbl
      (retry_pass tbl (swept tbl args positional).test_status).test_status) := by
  have hsum : ∀ x ∈ (if (swept tbl args positional).nb_test_tried > 1 then
      [out_event.summary (swept tbl args positional).nb_test_tried
        (swept tbl args positional).nb_test_failed
        (if (swept tbl args positional).nb_test_failed > 1 then "" else "s")]
     else ([] : List out_event)),
      (swept tbl args positional).nb_test_tried > 1 ∧
      x = out_event.summary (swept tbl args positional).nb_test_tried
        (swept tbl args positional).nb_test_failed
        (if (swept tbl args positional).nb_test_failed > 1 then "" else "s") := by
    intro x hx
    by_cases ht : (swept tbl args positional).nb_test_tried > 1
    · rw [if_pos ht] at hx
      simp at hx
      exact ⟨ht, hx⟩
    · rw [if_neg ht] at hx
      cases hx
  by_cases hf : (swept tbl args positional).nb_test_failed = 0
  · rw [main_run_nofail tbl args positional hf] at he
    simp only [List.mem_append] at he
    rcases he with h | h
    · exact Or.inl h
    · exact Or.inr (Or.inl (hsum e h))
  · have hfp : (swept tbl args positional).nb_test_failed > 0 := Nat.pos_of_ne_zero hf
    by_cases hdr : (parsed tbl args positional).disable_debug = true ∧
        (parsed tbl args positional).retry_failed_test = true
    · rw [main_run_retry tbl args positional hfp hdr.1 hdr.2] at he
      simp only [List.mem_append] at he
      rcases he with ((((h | h) | h) | h) | h)
      · exact Or.inl h
      · exact Or.inr (Or.inl (hsum e h))
      · simp at h
        exact Or.inr (Or.inr (Or.inl h))
      · exact Or.inr (Or.inr (Or.inr (Or.inl h)))
      · by_cases hrr : (retry_pass tbl (swept tbl args positional).test_status).ret = 0
        · rw [if_pos hrr] at h
          simp at h
          exact Or.inr (Or.inr (Or.inr (Or.inr (Or.inl h))))
        · rw [if_neg hrr] at h
          simp at h
          exact Or.inr (Or.inr (Or.inr (Or.inr (Or.inr h))))
    · rw [main_run_noretry tbl args positional hfp hdr] at he
      simp only [List.mem_append] at he
      rcases he with (h | h) | h
      · exact Or.inl h
      · exact Or.inr (Or.inl (hsum e h))
      · simp at h
        exact Or.inr (Or.inr (Or.inl h))

theorem main_out_summary (tbl : List picoquic_test_def_t) (args : List cli_arg)
    (positional : List String)
    (ht : (swept tbl args positional).nb_test_tried > 1) :
    out_event.summary (swept tbl args positional).nb_test_tried
      (swept tbl args positional).nb_test_failed
      (if (swept tbl args positional).nb_test_failed > 1 then "" else "s") ∈
      (main_run tbl args positional).out := by
  have hin : out_event.summary (swept tbl args positional).nb_test_tried
      (swept tbl args positional).nb_test_failed
      (if (swept tbl args positional).nb_test_failed > 1 then "" else "s") ∈
      (swept tbl args positional).out ++
        (if (swept tbl args positional).nb_test_tried > 1 then
          [out_event.summary (swept tbl args positional).nb_test_tried
            (swept tbl args positional).nb_test_failed
            (if (swept tbl args positional).nb_test_failed > 1 then "" else "s")]
         else []) := by
    apply List.mem_append_right
    rw [if_pos ht]
    simp
  by_cases hf : (swept tbl args positional).nb_test_failed = 0
  · rw [main_run_nofail tbl args positional hf]
    exact hin
  · have hfp : (swept tbl args positional).nb_test_failed > 0 := Nat.pos_of_ne_zero hf
    by_cases hdr : (parsed tbl args positional).disable_debug = true ∧
        (parsed tbl args positional).retry_failed_test = true
    · rw [main_run_retry tbl args positional hfp hdr.1 hdr.2]
      exact List.mem_append_left _ (List.mem_append_left _
        (List.mem_append_left _ hin))
    · rw [main_run_noretry tbl args positional hfp hdr]
      exact List.mem_append_left _ hin

/-- C5, counterexample.  The claim states that the summary phrasing for the
failure count M is singular exactly when M = 1 and plural for every other
M, including M = 0.  Running the four all-passing dtn tests with no flags
prints the summary for M = 0 with the same suffix "s" used at M = 1
(the line reads 0 fails, not the plural 0 fail), although 0 is not 1. -/
theorem c5_counterexample :
    out_event.summary 4 0 "s" ∈ (main_run tbl_ok [] []).out ∧
    (0 : Nat) ≠ 1 ∧ "s" ≠ "" := by
  refine ⟨by decide, by decide, by decide⟩

/-- C5, amended.  Whenever more than one test was counted as tried, the
aggregate summary line is printed; every summary line printed carries the
sweep's tried and failed counters and the suffix is empty (plural verb
form, N fail) exactly when M is greater than 1: both M = 0 and M = 1
produce the singular verb form N fails. -/
theorem c5_amended (tbl : List picoquic_test_def_t) (args : List cli_arg)
    (positional : List String) :
    ((swept tbl args positional).nb_test_tried > 1 →
      out_event.summary (swept tbl args positional).nb_test_tried
        (swept tbl args positional).nb_test_failed
        (if (swept tbl args positional).nb_test_failed > 1 then "" else "s") ∈
        (main_run tbl args positional).out) ∧
    (∀ t f suf, out_event.summary t f suf ∈ (main_run tbl args positional).out →
      (swept tbl args positional).nb_test_tried > 1 ∧
      t = (swept tbl args positional).nb_test_tried ∧
      f = (swept tbl args positional).nb_test_failed ∧
      suf = (if 1 < f then "" else "s")) := by
  constructor
  · exact main_out_summary tbl args positional
  · intro t f suf hmem
    rcases main_out_cases tbl args positional _ hmem with
      h | ⟨ht, h⟩ | h | h | h | h
    · have := swept_out tbl args positional _ h
      simp [sweep_out_ev] at this
    · simp only [out_event.summary.injEq] at h
      obtain ⟨h1, h2, h3⟩ := h
      subst h1
      subst h2
      exact ⟨ht, rfl, rfl, h3⟩
    · cases h
    · have := retry_pass_out tbl _ _ h
      simp [retry_out_ev] at this
    · cases h
    · cases h

/-- C5 witness. -/
theorem c5_witness :
    ((swept tbl_ok [] []).nb_test_tried > 1 →
      out_event.summary (swept tbl_ok [] []).nb_test_tried
        (swept tbl_ok [] []).nb_test_failed
        (if (swept tbl_ok [] []).nb_test_failed > 1 then "" else "s") ∈
        (main_run tbl_ok [] []).out) ∧
    (∀ t f suf, out_event.summary t f suf ∈ (main_run tbl_ok [] []).out →
      (swept tbl_ok [] []).nb_test_tried > 1 ∧
      t = (swept tbl_ok [] []).nb_test_tried ∧
      f = (swept tbl_ok [] []).nb_test_failed ∧
      suf = (if 1 < f then "" else "s")) :=
  c5_amended tbl_ok [] []

/-- C7: with a trailing positional test-name list whose names all resolve,
a successful parse and the whole table inside the ordinal range, the
selection leaves exactly the listed entries at NotRun (all others
Excluded, even entries also named in a -x exclusion group: the positional
list wins), the sweep invokes exactly the listed entries, and no bypassed
notice is printed for the auto-excluded entries. -/
theorem c7_theorem (tbl : List picoquic_test_def_t) (args : List cli_arg)
    (positional : List String)
    (hpos : positional ≠ [])
    (hgood : ∀ nm ∈ positional, ¬ get_test_number tbl nm < 0)
    (hret : (parsed tbl args positional).ret = 0)
    (hrange : ∀ i, i < tbl.length →
      (parsed tbl args positional).first_test ≤ i ∧
      i ≤ (parsed tbl args positional).last_test) :
    (∀ j, j < tbl.length →
      status_at (parsed tbl args positional).test_status j =
        (if ∃ nm ∈ positional, (get_test_number tbl nm).toNat = j then
          test_status_t.test_not_run
         else test_status_t.test_excluded)) ∧
    (∀ j c, ((j, c) ∈ (swept tbl args positional).invoked ↔
      (c = 0 ∧ j < tbl.length ∧
        ∃ nm ∈ positional, (get_test_number tbl nm).toNat = j))) ∧
    (∀ i nm, out_event.bypassed i nm ∉ (main_run tbl args positional).out) := by
  obtain ⟨hab, hstat⟩ := parsed_pos_state tbl args positional hpos hgood
  refine ⟨hstat, ?_, ?_⟩
  · intro j c
    rw [swept_run tbl args positional hret, run_sweep_invoked]
    constructor
    · intro hmem
      obtain ⟨k, hk, hke⟩ := List.mem_map.mp hmem
      obtain ⟨hk1, hk2⟩ := (Prod.mk.injEq k 0 j c).mp hke
      subst hk1
      obtain ⟨hkr, hkb⟩ := List.mem_filter.mp hk
      have hklt : k < tbl.length := List.mem_range.mp hkr
      refine ⟨hk2.symm, hklt, ?_⟩
      simp only [sweep_runs_b, Bool.and_eq_true, decide_eq_true_eq] at hkb
      have := hkb.1.1
      rw [hstat k hklt] at this
      by_cases hex : ∃ nm ∈ positional, (get_test_number tbl nm).toNat = k
      · exact hex
      · rw [if_neg hex] at this
        cases this
    · rintro ⟨hc, hj, hex⟩
      subst hc
      refine List.mem_map.mpr ⟨j, ?_, rfl⟩
      refine List.mem_filter.mpr ⟨List.mem_range.mpr hj, ?_⟩
      simp only [sweep_runs_b, Bool.and_eq_true, decide_eq_true_eq]
      exact ⟨⟨by rw [hstat j hj, if_pos hex], (hrange j hj).1⟩, (hrange j hj).2⟩
  · intro i nm hmem
    rcases main_out_cases tbl args positional _ hmem with
      h | ⟨-, h⟩ | h | h | h | h
    · have := swept_out tbl args positional _ h
      rw [hab] at this
      simp [sweep_out_ev] at this
    · cases h
    · cases h
    · have := retry_pass_out tbl _ _ h
      simp [retry_out_ev] at this
    · cases h
    · cases h

/-- C7 witness. -/
theorem c7_witness :
    ((["dtn_data", "dtn_twenty"] : List String) ≠ [] ∧
     (∀ nm ∈ (["dtn_data", "dtn_twenty"] : List String),
       ¬ get_test_number tbl_ok nm < 0) ∧
     (parsed tbl_ok [cli_arg.opt_x ["dtn_data"]] ["dtn_data", "dtn_twenty"]).ret = 0) ∧
    ((1, 0) ∈ (swept tbl_ok [cli_arg.opt_x ["dtn_data"]]
        ["dtn_data", "dtn_twenty"]).invoked ∧
     (0, 0) ∉ (swept tbl_ok [cli_arg.opt_x ["dtn_data"]]
        ["dtn_data", "dtn_twenty"]).invoked ∧
     (∀ i nm, out_event.bypassed i nm ∉
       (main_run tbl_ok [cli_arg.opt_x ["dtn_data"]]
         ["dtn_data", "dtn_twenty"]).out)) := by
  have h := c7_theorem tbl_ok [cli_arg.opt_x ["dtn_data"]]
    ["dtn_data", "dtn_twenty"] (by decide) (by decide) (by decide)
    (by decide)
  refine ⟨⟨by decide, by decide, by decide⟩, ?_, ?_, h.2.2⟩
  · exact (h.2.1 1 0).mpr ⟨rfl, by decide, by decide⟩
  · intro hmem
    have := (h.2.1 0 0).mp hmem
    have hex := this.2.2
    revert hex
    decide

/-- C8: when a -x exclusion group or the trailing positional list names a
string that is not a registered test name, the usage text goes to the
error stream, no test function is invoked at all, and the process result
is nonzero. -/
theorem c8_theorem (tbl : List picoquic_test_def_t) (args : List cli_arg)
    (positional : List String)
    (hbad : (∃ g, cli_arg.opt_x g ∈ args ∧ ∃ nm ∈ g, get_test_number tbl nm < 0) ∨
      (∃ nm ∈ positional, get_test_number tbl nm < 0)) :
    err_event.usage_text ∈ (main_run tbl args positional).err ∧
    (main_run tbl args positional).invoked = [] ∧
    (main_run tbl args positional).ret ≠ 0 := by
  have hret : (parsed tbl args positional).ret ≠ 0 := by
    intro hret
    obtain ⟨hargs, hpos⟩ := parsed_ret_zero tbl args positional hret
    rcases hbad with ⟨g, hg, nm, hnm, hlt⟩ | ⟨nm, hnm, hlt⟩
    · exact hargs g hg nm hnm hlt
    · exact hpos nm hnm hlt
  have hskip := swept_skip tbl args positional hret
  have hsfail : (swept tbl args positional).nb_test_failed = 0 := by
    rw [hskip]
  rw [main_run_nofail tbl args positional hsfail, hskip]
  exact ⟨parsed_usage tbl args positional hret, rfl, hret⟩

/-- C8 witness. -/
theorem c8_witness :
    ((∃ g, cli_arg.opt_x g ∈ ([cli_arg.opt_x ["nope"]] : List cli_arg) ∧
       ∃ nm ∈ g, get_test_number tbl_ok nm < 0)) ∧
    (err_event.usage_text ∈ (main_run tbl_ok [cli_arg.opt_x ["nope"]] []).err ∧
     (main_run tbl_ok [cli_arg.opt_x ["nope"]] []).invoked = [] ∧
     (main_run tbl_ok [cli_arg.opt_x ["nope"]] []).ret ≠ 0) :=
  ⟨⟨["nope"], by decide, "nope", by decide, by decide⟩,
    c8_theorem tbl_ok [cli_arg.opt_x ["nope"]] []
      (Or.inl ⟨["nope"], by decide, "nope", by decide, by decide⟩)⟩

theorem swept_invoked_snd (tbl : List picoquic_test_def_t) (args : List cli_arg)
    (positional : List String) :
    ∀ p ∈ (swept tbl args positional).invoked, p.2 = 0 := by
  by_cases hret : (parsed tbl args positional).ret = 0
  · rw [swept_run tbl args positional hret, run_sweep_invoked]
    intro p hp
    obtain ⟨k, -, hke⟩ := List.mem_map.mp hp
    rw [← hke]
  · rw [swept_skip tbl args positional hret]
    intro p hp
    cases hp

/-- C3: a test whose name is in the non-retryable blocklist and whose
status is Failed when the retry pass runs is never re-invoked by the retry
pass, keeps status test_failed, and the final process result stays
nonzero. -/
theorem c3_theorem (tbl : List picoquic_test_def_t) (args : List cli_arg)
    (positional : List String) (i : Nat)
    (hd : (parsed tbl args positional).disable_debug = true)
    (hr : (parsed tbl args positional).retry_failed_test = true)
    (hf : status_at (swept tbl args positional).test_status i =
      test_status_t.test_failed)
    (hb : non_retryable (name_at tbl i) = true) :
    (i, 1) ∉ (main_run tbl args positional).invoked ∧
    status_at (main_run tbl args positional).test_status i =
      test_status_t.test_failed ∧
    (main_run tbl args positional).ret ≠ 0 := by
  obtain ⟨hret, hi, hfail, hfp⟩ := swept_failed_pos tbl args positional i hf
  have hlen : (swept tbl args positional).test_status.length = tbl.length :=
    swept_length tbl args positional
  rw [main_run_retry tbl args positional hfp hd hr]
  have hstat : status_at (retry_pass tbl
      (swept tbl args positional).test_status).test_status i =
      test_status_t.test_failed := by
    rw [retry_pass_status tbl _ i hlen hi]
    simp [retry_status_spec, hf, hb]
  refine ⟨?_, hstat, ?_⟩
  · intro hmem
    rcases List.mem_append.mp hmem with h | h
    · have := swept_invoked_snd tbl args positional _ h
      cases this
    · rw [retry_pass_invoked] at h
      obtain ⟨k, hk, hke⟩ := List.mem_map.mp h
      obtain ⟨hk1, -⟩ := (Prod.mk.injEq k 1 i 1).mp hke
      subst hk1
      have hkb := (List.mem_filter.mp hk).2
      simp only [retry_runs_b, Bool.and_eq_true, Bool.not_eq_true'] at hkb
      rw [hkb.2] at hb
      cases hb
  · intro hzero
    have hzero2 : (retry_pass tbl
        (swept tbl args positional).test_status).ret = 0 := hzero
    exact (retry_pass_ret_iff tbl _ hlen).mp hzero2 i hstat

/-- C3 witness. -/
theorem c3_witness :
    ((parsed tbl_stress_fail [cli_arg.opt_n, cli_arg.opt_r] []).disable_debug = true ∧
     (parsed tbl_stress_fail [cli_arg.opt_n, cli_arg.opt_r] []).retry_failed_test = true ∧
     status_at (swept tbl_stress_fail [cli_arg.opt_n, cli_arg.opt_r] []).test_status 0 =
       test_status_t.test_failed ∧
     non_retryable (name_at tbl_stress_fail 0) = true) ∧
    ((0, 1) ∉ (main_run tbl_stress_fail [cli_arg.opt_n, cli_arg.opt_r] []).invoked ∧
     status_at (main_run tbl_stress_fail [cli_arg.opt_n, cli_arg.opt_r] []).test_status 0 =
       test_status_t.test_failed ∧
     (main_run tbl_stress_fail [cli_arg.opt_n, cli_arg.opt_r] []).ret ≠ 0) :=
  ⟨⟨by decide, by decide, by decide, by decide⟩,
    c3_theorem tbl_stress_fail [cli_arg.opt_n, cli_arg.opt_r] [] 0
      (by decide) (by decide) (by decide) (by decide)⟩

theorem nodup_filter_eq_singleton (l : List Nat) (i : Nat)
    (hnd : l.Nodup) (hm : i ∈ l) :
    l.filter (fun j => decide (j = i)) = [i] := by
  induction l with
  | nil => cases hm
  | cons a rest ih =>
      rcases List.mem_cons.mp hm with heq | hmem
      · subst heq
        have hrest : rest.filter (fun j => decide (j = i)) = [] := by
          apply List.filter_eq_nil_iff.mpr
          intro j hj
          simp only [decide_eq_true_eq]
          intro hje
          exact (List.Nodup.not_mem hnd) (hje ▸ hj)
        rw [List.filter_cons]
        simp [hrest]
      · have hne : a ≠ i := fun h => (List.Nodup.not_mem hnd) (h ▸ hmem)
        rw [List.filter_cons]
        simp only [decide_eq_true_eq]
        simp [hne]
        exact ih (List.Nodup.of_cons hnd) hmem

/-- C4: a failed test not in the non-retryable blocklist is, when the
retry pass runs (debug output suspended and retry requested), re-invoked
exactly once; if its re-invocation returns 0 its status flips to
test_success; and when no entry remains failed afterwards the all-clear
line is printed and the process result is 0. -/
theorem c4_theorem (tbl : List picoquic_test_def_t) (args : List cli_arg)
    (positional : List String) (i : Nat)
    (hd : (parsed tbl args positional).disable_debug = true)
    (hr : (parsed tbl args positional).retry_failed_test = true)
    (hf : status_at (swept tbl args positional).test_status i =
      test_status_t.test_failed)
    (hb : non_retryable (name_at tbl i) = false) :
    ((main_run tbl args positional).invoked.filter
      (fun p => decide (p = (i, 1)))).length = 1 ∧
    (run_result tbl i 1 = 0 →
      status_at (main_run tbl args positional).test_status i =
        test_status_t.test_success) ∧
    ((∀ j, status_at (main_run tbl args positional).test_status j ≠
        test_status_t.test_failed) →
      out_event.all_pass ∈ (main_run tbl args positional).out ∧
      (main_run tbl args positional).ret = 0) := by
  obtain ⟨hret, hi, hfail, hfp⟩ := swept_failed_pos tbl args positional i hf
  have hlen : (swept tbl args positional).test_status.length = tbl.length :=
    swept_length tbl args positional
  rw [main_run_retry tbl args positional hfp hd hr]
  refine ⟨?_, ?_, ?_⟩
  · rw [List.filter_append, List.length_append]
    have hc1 : ((swept tbl args positional).invoked.filter
        (fun p => decide (p = (i, 1)))) = [] := by
      apply List.filter_eq_nil_iff.mpr
      intro p hp
      have hsnd := swept_invoked_snd tbl args positional p hp
      simp only [decide_eq_true_eq]
      intro hpe
      rw [hpe] at hsnd
      cases hsnd
    have hc2 : (((retry_pass tbl
        (swept tbl args positional).test_status).invoked.filter
        (fun p => decide (p = (i, 1)))).length) = 1 := by
      rw [retry_pass_invoked, List.filter_map]
      have hcongr : (List.filter
          ((fun p => decide (p = ((i : Nat), (1 : Nat)))) ∘ (fun j => (j, 1)))
          ((List.range tbl.length).filter
            (retry_runs_b tbl (swept tbl args positional).test_status))) =
        (List.filter (fun j => decide (j = i))
          ((List.range tbl.length).filter
            (retry_runs_b tbl (swept tbl args positional).test_status))) := by
        apply List.filter_congr
        intro j _
        simp [Prod.ext_iff]
      rw [hcongr, nodup_filter_eq_singleton _ i
        (List.Nodup.filter _ (List.nodup_range _)) ?_]
      · simp
      · apply List.mem_filter.mpr
        refine ⟨List.mem_range.mpr hi, ?_⟩
        simp [retry_runs_b, hf, hb]
    rw [hc1, hc2]
    rfl
  · intro hrun
    rw [retry_pass_status tbl _ i hlen hi]
    simp [retry_status_spec, hf, hb, hrun]
  · intro hall
    have hzero : (retry_pass tbl
        (swept tbl args positional).test_status).ret = 0 := by
      rw [retry_pass_ret_iff tbl _ hlen]
      intro j
      exact hall j
    constructor
    · refine List.mem_append_right _ ?_
      rw [if_pos hzero]
      simp
    · exact hzero

/-- C4 witness. -/
theorem c4_witness :
    ((parsed tbl_heisenbug [cli_arg.opt_n, cli_arg.opt_r] []).disable_debug = true ∧
     (parsed tbl_heisenbug [cli_arg.opt_n, cli_arg.opt_r] []).retry_failed_test = true ∧
     status_at (swept tbl_heisenbug [cli_arg.opt_n, cli_arg.opt_r] []).test_status 0 =
       test_status_t.test_failed ∧
     non_retryable (name_at tbl_heisenbug 0) = false ∧
     run_result tbl_heisenbug 0 1 = 0) ∧
    (((main_run tbl_heisenbug [cli_arg.opt_n, cli_arg.opt_r] []).invoked.filter
        (fun p => decide (p = (0, 1)))).length = 1 ∧
     (run_result tbl_heisenbug 0 1 = 0 →
       status_at (main_run tbl_heisenbug [cli_arg.opt_n, cli_arg.opt_r] []).test_status 0 =
         test_status_t.test_success) ∧
     ((∀ j, status_at (main_run tbl_heisenbug [cli_arg.opt_n, cli_arg.opt_r] []).test_status j ≠
         test_status_t.test_failed) →
       out_event.all_pass ∈ (main_run tbl_heisenbug [cli_arg.opt_n, cli_arg.opt_r] []).out ∧
       (main_run tbl_heisenbug [cli_arg.opt_n, cli_arg.opt_r] []).ret = 0)) :=
  ⟨⟨by decide, by decide, by decide, by decide, by decide⟩,
    c4_theorem tbl_heisenbug [cli_arg.opt_n, cli_arg.opt_r] [] 0
      (by decide) (by decide) (by decide) (by decide)⟩

/-- C9: the retry pass only changes Failed entries, and only to Success
(entries with status Success, Excluded or NotRun after the sweep are
untouched); the tried and failed counters reported by the first summary
line are those of the sweep and are not altered by the retry pass. -/
theorem c9_theorem (tbl : List picoquic_test_def_t) (args : List cli_arg)
    (positional : List String) :
    (∀ j, status_at (main_run tbl args positional).test_status j ≠
        status_at (swept tbl args positional).test_status j →
      status_at (swept tbl args positional).test_status j =
        test_status_t.test_failed ∧
      status_at (main_run tbl args positional).test_status j =
        test_status_t.test_success) ∧
    (main_run tbl args positional).nb_test_tried =
      (swept tbl args positional).nb_test_tried ∧
    (main_run tbl args positional).nb_test_failed =
      (swept tbl args positional).nb_test_failed ∧
    ((swept tbl args positional).nb_test_tried > 1 →
      out_event.summary (swept tbl args positional).nb_test_tried
        (swept tbl args positional).nb_test_failed
        (if (swept tbl args positional).nb_test_failed > 1 then "" else "s") ∈
        (main_run tbl args positional).out) := by
  have hlen : (swept tbl args positional).test_status.length = tbl.length :=
    swept_length tbl args positional
  refine ⟨?_, ?_, ?_, main_out_summary tbl args positional⟩
  · intro j hne
    by_cases hf : (swept tbl args positional).nb_test_failed = 0
    · rw [main_run_nofail tbl args positional hf] at hne
      exact absurd rfl hne
    · have hfp : (swept tbl args positional).nb_test_failed > 0 :=
        Nat.pos_of_ne_zero hf
      by_cases hdr : (parsed tbl args positional).disable_debug = true ∧
          (parsed tbl args positional).retry_failed_test = true
      · rw [main_run_retry tbl args positional hfp hdr.1 hdr.2] at hne ⊢
        exact retry_pass_frame tbl _ j hlen hne
      · rw [main_run_noretry tbl args positional hfp hdr] at hne
        exact absurd rfl hne
  · by_cases hf : (swept tbl args positional).nb_test_failed = 0
    · rw [main_run_nofail tbl args positional hf]
    · have hfp : (swept tbl args positional).nb_test_failed > 0 :=
        Nat.pos_of_ne_zero hf
      by_cases hdr : (parsed tbl args positional).disable_debug = true ∧
          (parsed tbl args positional).retry_failed_test = true
      · rw [main_run_retry tbl args positional hfp hdr.1 hdr.2]
      · rw [main_run_noretry tbl args positional hfp hdr]
  · by_cases hf : (swept tbl args positional).nb_test_failed = 0
    · rw [main_run_nofail tbl args positional hf]
    · have hfp : (swept tbl args positional).nb_test_failed > 0 :=
        Nat.pos_of_ne_zero hf
      by_cases hdr : (parsed tbl args positional).disable_debug = true ∧
          (parsed tbl args positional).retry_failed_test = true
      · rw [main_run_retry tbl args positional hfp hdr.1 hdr.2]
      · rw [main_run_noretry tbl args positional hfp hdr]

/-- C9 witness. -/
theorem c9_witness :
    (∀ j, status_at (main_run tbl_heisenbug [cli_arg.opt_n, cli_arg.opt_r] []).test_status j ≠
        status_at (swept tbl_heisenbug [cli_arg.opt_n, cli_arg.opt_r] []).test_status j →
      status_at (swept tbl_heisenbug [cli_arg.opt_n, cli_arg.opt_r] []).test_status j =
        test_status_t.test_failed ∧
      status_at (main_run tbl_heisenbug [cli_arg.opt_n, cli_arg.opt_r] []).test_status j =
        test_status_t.test_success) ∧
    (main_run tbl_heisenbug [cli_arg.opt_n, cli_arg.opt_r] []).nb_test_tried =
      (swept tbl_heisenbug [cli_arg.opt_n, cli_arg.opt_r] []).nb_test_tried ∧
    (main_run tbl_heisenbug [cli_arg.opt_n, cli_arg.opt_r] []).nb_test_failed =
      (swept tbl_heisenbug [cli_arg.opt_n, cli_arg.opt_r] []).nb_test_failed ∧
    ((swept tbl_heisenbug [cli_arg.opt_n, cli_arg.opt_r] []).nb_test_tried > 1 →
      out_event.summary (swept tbl_heisenbug [cli_arg.opt_n, cli_arg.opt_r] []).nb_test_tried
        (swept tbl_heisenbug [cli_arg.opt_n, cli_arg.opt_r] []).nb_test_failed
        (if (swept tbl_heisenbug [cli_arg.opt_n, cli_arg.opt_r] []).nb_test_failed > 1
          then "" else "s") ∈
        (main_run tbl_heisenbug [cli_arg.opt_n, cli_arg.opt_r] []).out) :=
  c9_theorem tbl_heisenbug [cli_arg.opt_n, cli_arg.opt_r] []
